import Mathlib

/-!
Shallow embedding of the dt-dashboard per-package reconciliation engine
(`CheckCommand` in the repository's `check` command, together with the
schema helpers in `common.ts`), and proofs about the claims on it.

Two variants of the engine are embedded:

* `DT`: the most refined variant of `#checkPackage` / `#checkPackageCached`
  (the pacote-based engine with `too-new` re-query, `entrypoint`/`other`
  typed-ness classification, deprecation tracking and the cache
  short-circuit).
* `DTV1`: the earlier make-fetch-happen variant whose primary
  `package.json` fetch escalates an HTTP 524 to a run-aborting
  `FatalError`; this is the variant in which that escalation lives.

Network and filesystem effects are modelled by explicit oracle records
(`World`, `V1World`): each oracle field returns what the corresponding
HTTP call (after its internal retries) produced.  Semantic versions are
modelled structurally: a manifest carries both the raw JSON version string
and its (externally) parsed `Version`, since the engine compares the raw
string against the cache but stores the re-formatted string.
-/

namespace DT

/-- One semver prerelease identifier: all-digit identifiers are numeric
(semver compares them as numbers), the rest compare lexically. -/
inductive PreId where
  | num (n : Nat)
  | str (s : String)
deriving DecidableEq, Repr

/-- Parsed semantic version: numeric triple plus prerelease identifiers
(empty list = release).  Build metadata is ignored, as it is by semver
precedence. -/
structure Version where
  major : Nat
  minor : Nat
  patch : Nat
  pre : List PreId
deriving DecidableEq, Repr

/-- Lexicographic strict comparison of character lists (the string
ordering, written out so that it evaluates inside the kernel). -/
def charsLt : List Char → List Char → Bool
  | [], [] => false
  | [], _ :: _ => true
  | _ :: _, [] => false
  | c :: cs, d :: ds => if c = d then charsLt cs ds else decide (c < d)

/-- Lexicographic non-strict comparison of character lists. -/
def charsLe (a b : List Char) : Bool :=
  !charsLt b a

/-- semver identifier comparison: numeric identifiers compare as numbers
and sort before alphanumeric identifiers; alphanumeric identifiers compare
lexically. -/
def identLt : PreId → PreId → Bool
  | .num x, .num y => x < y
  | .num _, .str _ => true
  | .str _, .num _ => false
  | .str a, .str b => charsLt a.data b.data

/-- semver prerelease-list comparison: elementwise, a strict prefix sorts
first. -/
def preListLt : List PreId → List PreId → Bool
  | [], [] => false
  | [], _ :: _ => true
  | _ :: _, [] => false
  | a :: as, b :: bs => if a = b then preListLt as bs else identLt a b

/-- Prerelease comparison at equal numeric triples: a prerelease sorts
before the release, two prereleases compare elementwise. -/
def preLt (a b : List PreId) : Bool :=
  match a, b with
  | [], [] => false
  | [], _ :: _ => false
  | _ :: _, [] => true
  | x :: xs, y :: ys => preListLt (x :: xs) (y :: ys)

/-- semver precedence `<`: lexicographic on (major, minor, patch), then
the prerelease rule. -/
def versionLt (a b : Version) : Bool :=
  if a.major ≠ b.major then a.major < b.major
  else if a.minor ≠ b.minor then a.minor < b.minor
  else if a.patch ≠ b.patch then a.patch < b.patch
  else preLt a.pre b.pre

def versionLe (a b : Version) : Bool :=
  !versionLt b a

def renderPreId : PreId → String
  | .num n => toString n
  | .str s => s

def renderPreList : List PreId → String
  | [] => ""
  | [x] => renderPreId x
  | x :: y :: rest => renderPreId x ++ "." ++ renderPreList (y :: rest)

/-- `SemVer.format()`: canonical `major.minor.patch[-pre]` rendering. -/
def formatVersion (v : Version) : String :=
  let M := v.major
  let m := v.minor
  let p := v.patch
  s!"{M}.{m}.{p}"
    ++ (if v.pre.isEmpty then "" else "-" ++ renderPreList v.pre)

/-- Lower bound of the caret range the code builds: the specifier string is
`"{major}.{minor}"` when the declared major is `0` and `"{major}"`
otherwise, so the range is `^0.m` resp. `^M`. -/
def caretFloorCode (M m : Nat) : Version :=
  if M = 0 then ⟨0, m, 0, []⟩ else ⟨M, 0, 0, []⟩

/-- Exclusive upper bound of both caret ranges: `0.(m+1).0-0` resp.
`(M+1).0.0-0`. -/
def caretCeil (M m : Nat) : Version :=
  if M = 0 then ⟨0, m + 1, 0, [.num 0]⟩ else ⟨M + 1, 0, 0, [.num 0]⟩

/-- `semver.satisfies(v, `^{specifier}`, { loose: true, includePrerelease:
true })` as issued by the too-new re-query. -/
def satisfiesCaretCode (M m : Nat) (v : Version) : Bool :=
  versionLe (caretFloorCode M m) v && versionLt v (caretCeil M m)

/-- Modelled from the spec: the range the spec prescribes for the too-new
re-query, `^{declared-major}.{declared-minor}` for every declared version
(the code instead uses `^{declared-major}` once the declared major is at
least 1). -/
def satisfiesCaretSpec (M m : Nat) (v : Version) : Bool :=
  versionLe ⟨M, m, 0, []⟩ v && versionLt v (caretCeil M m)

/-- One step of taking the running maximum (ties keep the earlier
element, as the stable descending sort does). -/
def selStep (acc : Option (String × Version)) (x : String × Version) :
    Option (String × Version) :=
  match acc with
  | none => some x
  | some best => if versionLt best.2 x.2 then some x else some best

/-- `versions.sort((a, b) => semver.compare(b, a)); versions[0]`: the first
element of the descending stable sort, i.e. the earliest listed maximum. -/
def selectLatest (vs : List (String × Version)) : Option (String × Version) :=
  vs.foldl selStep none

/-!
## JSON values

Untyped JSON values as produced by `JSON.parse` and passed through the
valita schemas in passthrough mode.  The object and array spines are their
own inductives (rather than `List`) so that every recursion on them is
structural and reduces definitionally.  `JSON.parse` never yields
`undefined` and deduplicates object keys, so object field lists are
assumed key-unique; absent fields are `Option.none` at the use sites.
-/

mutual
inductive JValue where
  | vNull
  | vBool (b : Bool)
  | vNum (n : Int)
  | vStr (s : String)
  | vArr (elems : JArr)
  | vObj (fields : JObj)
inductive JArr where
  | nil
  | cons (hd : JValue) (tl : JArr)
inductive JObj where
  | nil
  | cons (key : String) (val : JValue) (tl : JObj)
end

deriving instance DecidableEq for JValue

/-- JavaScript `typeof` on a JSON value (`typeof null` is `"object"`). -/
def jsTypeofV : JValue → String
  | .vNull => "object"
  | .vBool _ => "boolean"
  | .vNum _ => "number"
  | .vStr _ => "string"
  | .vArr _ => "object"
  | .vObj _ => "object"

/-- JavaScript truthiness of a JSON value. -/
def truthy : JValue → Bool
  | .vNull => false
  | .vBool b => b
  | .vNum n => n ≠ 0
  | .vStr s => s ≠ ""
  | .vArr _ => true
  | .vObj _ => true

/-- Truthiness of a possibly-absent JSON field (`undefined` is falsy). -/
def truthyOpt : Option JValue → Bool
  | none => false
  | some v => truthy v

def objLookup : JObj → String → Option JValue
  | .nil, _ => none
  | .cons k v tl, key => if k = key then some v else objLookup tl key

/-- Property access `v.key` on a non-null value: object lookup, and
`undefined` on primitives (which JavaScript boxes).  Access on `null`
throws a TypeError in JavaScript; every call site of this function guards
the null case explicitly (`someTypesValue` below throws there). -/
def getField (v : JValue) (key : String) : Option JValue :=
  match v with
  | .vObj fields => objLookup fields key
  | _ => none

def objValues : JObj → List JValue
  | .nil => []
  | .cons _ v tl => v :: objValues tl

def arrToList : JArr → List JValue
  | .nil => []
  | .cons v tl => v :: arrToList tl

/-- `Object.values(v)` for the shapes the engine feeds it (objects and
arrays); empty elsewhere. -/
def jsValues : JValue → List JValue
  | .vObj fields => objValues fields
  | .vArr elems => arrToList elems
  | _ => []

def objKeys : JObj → List String
  | .nil => []
  | .cons k _ tl => k :: objKeys tl

/-!
## String and POSIX path helpers

`String.prototype.includes`, `path.extname`, `path.posix.resolve` and
friends, written over character lists so that they evaluate inside the
kernel (the built-in `String` operations are extern-backed).
-/

def strEndsWith (s pat : String) : Bool :=
  pat.data.isSuffixOf s.data

def strStartsWith (s pat : String) : Bool :=
  pat.data.isPrefixOf s.data

/-- Drop the last `n` characters. -/
def strDropRight (s : String) (n : Nat) : String :=
  ⟨s.data.take (s.data.length - n)⟩

/-- Split at the first occurrence of the (nonempty) pattern: the part
before it and the part after it, or `none` when it does not occur. -/
def firstSplit (pat : List Char) : List Char → Option (List Char × List Char)
  | [] => none
  | c :: rest =>
    if pat ≠ [] ∧ pat.isPrefixOf (c :: rest) then some ([], (c :: rest).drop pat.length)
    else
      match firstSplit pat rest with
      | none => none
      | some (pre, post) => some (c :: pre, post)

/-- `String.prototype.includes`. -/
def containsSub (s pat : String) : Bool :=
  (firstSplit pat.data s.data).isSome

/-- The final slash-separated segment. -/
def lastSegment (s : String) : String :=
  ⟨s.data.foldl (fun acc c => if c = '/' then [] else acc ++ [c]) []⟩

/-- The suffix of the character list from its last dot, if any. -/
def tailFromLastDot : List Char → Option (List Char)
  | [] => none
  | c :: rest =>
    match tailFromLastDot rest with
    | some t => some t
    | none => if c = '.' then some (c :: rest) else none

/-- `path.extname`: the suffix of the final segment from its last dot; a
dot in leading position alone (dotfile) yields no extension. -/
def extname (p : String) : String :=
  let base := (lastSegment p).data
  match tailFromLastDot base with
  | none => ""
  | some t => if t.length = base.length then "" else ⟨t⟩

/-- Split a character list at a separator character (keeping empty
segments, as `String.prototype.split` does). -/
def splitChar (sep : Char) (l : List Char) : List (List Char) :=
  l.foldr
    (fun c acc =>
      match acc with
      | [] => [[c]]
      | seg :: rest => if c = sep then [] :: seg :: rest else (c :: seg) :: rest)
    [[]]

def joinSegs : List (List Char) → List Char
  | [] => []
  | [s] => s
  | s :: t :: rest => s ++ '/' :: joinSegs (t :: rest)

/-- Normalise an absolute POSIX path: collapse `//`, resolve `.` and `..`
(stopping at the root), drop any trailing slash. -/
def normalizeAbs (p : String) : String :=
  let out := (splitChar '/' p.data).foldl
    (fun acc seg =>
      if seg = [] ∨ seg = ['.'] then acc
      else if seg = ['.', '.'] then acc.dropLast
      else acc ++ [seg])
    []
  ⟨'/' :: joinSegs out⟩

/-- `path.posix.resolve("/", p)`. -/
def posixResolveRoot (p : String) : String :=
  normalizeAbs p

/-- `path.resolve(parent, name)` with `parent` absolute. -/
def resolveUnder (parent name : String) : String :=
  if strStartsWith name "/" then normalizeAbs name
  else normalizeAbs (parent ++ "/" ++ name)

/-- Insertion sort on strings, standing in for `Array.prototype.sort`
(only sorted-equality of key lists is consumed, for which any total
comparison agrees). -/
def insertStr (s : String) : List String → List String
  | [] => [s]
  | x :: xs => if charsLe s.data x.data then s :: x :: xs else x :: insertStr s xs

def sortStr (l : List String) : List String :=
  l.foldr insertStr []

/-!
## Upstream manifest model and typed-ness detector
-/

/-- The `NpmManifest` schema fields the engine reads.  `versionRaw` is the
raw JSON `version` string; `version` is its `new SemVer(_, { loose: true })`
parse (kept alongside because the engine compares the raw string against
the cache but stores the re-formatted one; manifests whose version string
fails even loose parsing throw before any of the modelled decisions and
are out of scope here). -/
structure NpmManifest where
  versionRaw : String
  version : Version
  main : Option JValue
  types : Option JValue
  typings : Option JValue
  exports : Option JValue
  type : Option String
  deprecated : Option JValue

/-- The `.some(value => typeof value !== "string" && value.types)` scan
over `Object.values(p.exports)`, in order: a string value fails the
`typeof` guard and is skipped; a `null` value passes it and the
`value.types` access throws a TypeError; any other value tests its
(possibly undefined) `types` property for truthiness. -/
def someTypesValue : List JValue → Except Unit Bool
  | [] => .ok false
  | v :: rest =>
    if jsTypeofV v = "string" then someTypesValue rest
    else
      match v with
      | .vNull => .error ()
      | _ =>
        if truthyOpt (getField v "types") then .ok true else someTypesValue rest

/-- `packageJSONIsTyped`: truthy `types` or `typings`, or a truthy object
`exports` whose direct-value scan (`someTypesValue`) finds a non-string
value with a truthy `types` property.  Faithfully non-recursive (nested
conditional maps are not walked), and faithfully partial: a `null` direct
value reached by the scan throws, which the package boundary folds into an
`error` record.  The `||`/`&&` short-circuiting of the source is the
if-chain. -/
def packageJSONIsTyped (p : NpmManifest) : Except Unit Bool :=
  if truthyOpt p.types then .ok true
  else if truthyOpt p.typings then .ok true
  else if truthyOpt p.exports ∧ jsTypeofV (p.exports.getD .vNull) = "object" then
    someTypesValue (jsValues (p.exports.getD .vNull))
  else .ok false

/-- `filenameToPossibleDeclarations`: map a JS entrypoint to its candidate
ambient declaration filenames, absolute-normalised. -/
def filenameToPossibleDeclarations (filename : String) : List String :=
  let ext := extname filename
  let staticMapping :=
    if ext = ".cjs" then some ".d.cts"
    else if ext = ".mjs" then some ".d.mts"
    else if ext = ".js" then some ".d.ts"
    else none
  let arr :=
    match staticMapping with
    | some m => [strDropRight filename ext.length ++ m]
    | none => [filename ++ ".d.ts", filename ++ "/index.d.ts"]
  arr.map posixResolveRoot

mutual
/-- `walkObject` inside the entrypoint-candidate computation: collect the
string leaves of the `exports` value, skipping falsy nodes. -/
def walkExports : JValue → List String
  | .vStr s => if s = "" then [] else [s]
  | .vObj fields => walkExportsObj fields
  | .vArr elems => walkExportsArr elems
  | _ => []
def walkExportsObj : JObj → List String
  | .nil => []
  | .cons _ v tl => walkExports v ++ walkExportsObj tl
def walkExportsArr : JArr → List String
  | .nil => []
  | .cons v tl => walkExports v ++ walkExportsArr tl
end

def declarationsOfLeaves : List String → List String
  | [] => []
  | s :: rest => filenameToPossibleDeclarations s ++ declarationsOfLeaves rest

/-- The entrypoint declaration candidate set: from the string leaves of
`exports` when `exports` is truthy, else `/index.d.ts` plus the candidates
of a string `main`. -/
def computeCandidates (fm : NpmManifest) : List String :=
  if truthyOpt fm.exports then
    declarationsOfLeaves (walkExports (fm.exports.getD .vNull))
  else
    "/index.d.ts"
      :: (match fm.main with
          | some (.vStr s) => filenameToPossibleDeclarations s
          | _ => [])

/-- `exportsSimilar`: null is normalised to undefined, differing `typeof`
is dissimilar, non-objects are vacuously similar, arrays are vacuously
similar, and two plain objects are similar iff they have the same key
set. -/
def exportsSimilar (a0 b0 : Option JValue) : Bool :=
  let a := match a0 with | some .vNull => none | x => x
  let b := match b0 with | some .vNull => none | x => x
  let ta := match a with | none => "undefined" | some v => jsTypeofV v
  let tb := match b with | none => "undefined" | some v => jsTypeofV v
  if ta ≠ tb then false
  else if ta ≠ "object" then true
  else
    match a, b with
    | some (.vObj fa), some (.vObj fb) =>
      let ka := objKeys fa
      let kb := objKeys fb
      ka.length = kb.length && sortStr ka = sortStr kb
    | _, _ => true

/-!
## File-listing metadata
-/

mutual
/-- One node of the jsdelivr/unpkg file tree (`type: file | directory`).
An absent `files` array on a directory is modelled as the empty spine —
both skip the subtree identically. -/
inductive MetaNode where
  | mfile (name : Option String) (path : Option String)
  | mdir (name : Option String) (path : Option String) (files : MetaNodes)
inductive MetaNodes where
  | nil
  | cons (hd : MetaNode) (tl : MetaNodes)
end

/-- The `Metadata` document: its (possibly absent, here possibly empty)
top-level `files` array. -/
structure Metadata where
  files : MetaNodes

/-- `file.path ?? (file.name === undefined ? undefined :
path.resolve(parent, file.name))`: the `??` chain only (the subsequent
JavaScript truthiness check, which also rejects an empty string, lives in
`flattenNode`). -/
def metaAbsPath (parent : String) (name p : Option String) : Option String :=
  match p with
  | some q => some q
  | none => name.map (fun n => resolveUnder parent n)

mutual
/-- `forEachFileInMetadata`'s generator, reified as the flat list of
yielded absolute filenames; the `if (!absPath) throw` guard rejects both
an absent result and an empty-string `path` field (both falsy in
JavaScript), aborting the whole walk. -/
def flattenNode (parent : String) : MetaNode → Except String (List String)
  | .mfile name p =>
    match metaAbsPath parent name p with
    | none => .error "File has no name or path"
    | some abs =>
      if abs = "" then .error "File has no name or path" else .ok [abs]
  | .mdir name p files =>
    match metaAbsPath parent name p with
    | none => .error "File has no name or path"
    | some abs =>
      if abs = "" then .error "File has no name or path" else flattenNodes abs files
def flattenNodes (parent : String) : MetaNodes → Except String (List String)
  | .nil => .ok []
  | .cons hd tl =>
    match flattenNode parent hd with
    | .error e => .error e
    | .ok xs =>
      match flattenNodes parent tl with
      | .error e => .error e
      | .ok ys => .ok (xs ++ ys)
end

def metadataFiles (m : Metadata) : Except String (List String) :=
  flattenNodes "/" m.files

/-!
## Declaration-file matching and classification
-/

/-- Whether a path segment begins with a dot (a hidden file or
directory). -/
def dotInitial : List Char → Bool
  | '.' :: _ => true
  | _ => false

/-- The `Minimatch` pattern `**/*.d.{ts,cts,mts,*.ts}` brace-expands to
`**/*.d.ts`, `**/*.d.cts`, `**/*.d.mts` and `**/*.d.*.ts`.  On the
absolute slash-separated filenames fed to it, and under minimatch's
default dot handling, `**` must consume every segment but the last
without traversing a dot-initial one, and the `*`-initial final pattern
cannot match a dot-initial final segment; otherwise the final segment is
tested against the four alternatives. -/
def dtsMatch (filename : String) : Bool :=
  let segs := splitChar '/' filename.data
  let seg : String := ⟨segs.getLastD []⟩
  if (segs.dropLast).any dotInitial then false
  else if strStartsWith seg "." then false
  else
    strEndsWith seg ".d.ts" || strEndsWith seg ".d.cts" || strEndsWith seg ".d.mts"
      || (strEndsWith seg ".ts" && containsSub (strDropRight seg 3) ".d.")

def isNodeModulesPath (f : String) : Bool :=
  containsSub f "/node_modules/"

inductive HasTypes where
  | packageJson
  | entrypoint
  | other
deriving DecidableEq, Repr

/-- The file-walk classification: filenames under a `/node_modules/`
segment are skipped; an entrypoint-candidate hit wins over a
declaration-glob hit. -/
def classifyFiles (candidates files : List String) : Option HasTypes :=
  let foundEntrypoint := files.any (fun f => !isNodeModulesPath f && candidates.contains f)
  let foundOther := files.any (fun f => !isNodeModulesPath f && dtsMatch f)
  if foundEntrypoint then some .entrypoint
  else if foundOther then some .other
  else none

/-!
## Reconciliation engine
-/

/-- `nonNpm` on the DT package.json: `boolean | "conflict" | undefined`,
with `undefined`/`false` collapsed to `no` (both are falsy). -/
inductive NonNpmFlag where
  | no
  | yes
  | conflict
deriving DecidableEq, Repr

/-- The descriptor fields the engine consumes. -/
structure TypingsData where
  unescapedName : String
  fullNpmName : String
  subDirectoryPath : String
  major : Nat
  minor : Nat
  nonNpm : NonNpmFlag
  isLatest : Bool
  packageJsonType : Option String
  exports : Option JValue

inductive OutOfDate where
  | major
  | minor
  | tooNew
deriving DecidableEq, Repr

structure FoundStatus where
  current : String
  outOfDate : Option OutOfDate
  hasTypes : Option HasTypes
  packageJsonTypeMatches : Bool
  exportsSimilar : Bool
  isDeprecated : Bool
deriving DecidableEq, Repr

/-- The `CachedStatus` tagged union. -/
inductive CachedStatus where
  | found (f : FoundStatus)
  | notInRegistry
  | unpublished
  | missingVersion
  | nonNpm
  | conflict
  | error (message : String)
deriving DecidableEq, Repr

/-- How `pacote.manifest` fails: `E404`, `ETARGET` (carrying the version
list used to tell `unpublished` from `missing-version`), or any other
error code. -/
inductive ManifestError where
  | notFound
  | noMatchingVersion (versions : Option (List String))
  | fetchError (code : String)

/-- Outcome of one file-tree provider call: HTTP failure, HTTP success
whose body fails `Metadata.parse`, or a parsed tree. -/
inductive ProviderResult where
  | httpError (status : Nat) (text : String)
  | parseError
  | ok (m : Metadata)

/-- The network oracle: what each upstream endpoint returns for this run
(after the fetch layer's internal retries).  `packument` yields the keys
of the full `versions` map, each with its parsed form. -/
structure World where
  manifest : String → String → Except ManifestError NpmManifest
  packument : String → Except Unit (List (String × Version))
  primaryMeta : String → String → ProviderResult
  secondaryMeta : String → String → ProviderResult

/-- The version specifier ignoring `isLatest`: `"{major}.{minor}"` for
0.x, else `"{major}"`. -/
def specifierOf (data : TypingsData) : String :=
  if data.major = 0 then
    let M := data.major
    let m := data.minor
    s!"{M}.{m}"
  else toString data.major

def specifierOrLatest (data : TypingsData) : String :=
  if data.isLatest then "latest" else specifierOf data

/-- Resolve the specifier's manifest, plus the `latest` tag's manifest for
its `deprecated` flag (reused when the specifier already was `latest`);
either failure escapes to the shared catch. -/
def resolveManifests (w : World) (name spec : String) :
    Except ManifestError (NpmManifest × NpmManifest) :=
  match w.manifest name spec with
  | .error e => .error e
  | .ok fm =>
    if spec = "latest" then .ok (fm, fm)
    else
      match w.manifest name "latest" with
      | .error e => .error e
      | .ok lm => .ok (fm, lm)

/-- The catch around manifest resolution: `E404` to `not-in-registry`,
`ETARGET` to `unpublished` (no versions at all) or `missing-version`,
anything else to an `error` status. -/
def classifyManifestError (name : String) (e : ManifestError) : CachedStatus :=
  match e with
  | .notFound => .notInRegistry
  | .noMatchingVersion vs =>
    if vs.getD [] = [] then .unpublished else .missingVersion
  | .fetchError code => .error (name ++ " failed to resolve manifest: " ++ code)

/-- The too-new re-query: when the specifier was `latest` and the resolved
`(major, minor)` is behind the declared pair, fetch the packument, keep
the highest version satisfying the caret range of the declared specifier
(prereleases included), and re-resolve that exact version's manifest; any
failure, or no satisfying version, keeps the original manifest. -/
def tooNewRequery (w : World) (data : TypingsData) (fm : NpmManifest) : NpmManifest :=
  if specifierOrLatest data = "latest"
      ∧ (fm.version.major < data.major
        ∨ (fm.version.major = data.major ∧ fm.version.minor < data.minor)) then
    match w.packument data.unescapedName with
    | .error _ => fm
    | .ok vs =>
      match selectLatest (vs.filter (fun p => satisfiesCaretCode data.major data.minor p.2)) with
      | none => fm
      | some sel =>
        match w.manifest data.unescapedName sel.1 with
        | .error _ => fm
        | .ok fm2 => fm2
  else fm

/-- The out-of-date classification on the (possibly re-queried) resolved
version, only for `isLatest` descriptors: too-new first, then
major-behind, then minor-behind (a 0.x minor lag counts as major). -/
def computeOutOfDate (isLatest : Bool) (dMajor dMinor : Nat) (cur : Version) :
    Option OutOfDate :=
  if !isLatest then none
  else if cur.major < dMajor ∨ (cur.major = dMajor ∧ cur.minor < dMinor) then some .tooNew
  else if cur.major > dMajor then some .major
  else if cur.minor > dMinor then
    if dMajor = 0 then some .major else some .minor
  else none

/-- Outcome of `#tryGetPackageMetadata`. -/
inductive MetaOutcome where
  | got (m : Metadata)
  | respError (status : Nat) (text : String)
  | thrownParse

/-- `#tryGetPackageMetadata`: primary provider, falling back to the
secondary on HTTP or parse failure; a secondary HTTP failure surfaces the
response, a secondary parse failure throws. -/
def tryGetPackageMetadata (w : World) (name ver : String) : MetaOutcome :=
  match w.primaryMeta name ver with
  | .ok m => .got m
  | _ =>
    match w.secondaryMeta name ver with
    | .httpError s t => .respError s t
    | .parseError => .thrownParse
    | .ok m => .got m

/-- What `#checkPackage` does: return a status, or throw (folded to an
`error` status by its caller). -/
inductive COutcome where
  | ok (s : CachedStatus)
  | thrown (msg : String)
deriving DecidableEq, Repr

/-- Instrumented result: the outcome plus whether any file-listing fetch
was issued (used to state the no-redundant-fetch claims). -/
structure CheckResult where
  outcome : COutcome
  fetchedFiles : Bool
deriving DecidableEq, Repr

/-- The tail of `#checkPackage` past the cache short-circuit: out-of-date
classification, typed-ness via the manifest and, failing that, via the
file listing, and assembly of the `found` status. -/
def checkFresh (w : World) (data : TypingsData) (fm : NpmManifest) (isDep : Bool) :
    CheckResult :=
  let curStr := formatVersion fm.version
  let outOfDate := computeOutOfDate data.isLatest data.major data.minor fm.version
  let typeMatches := (data.packageJsonType.getD "commonjs") = (fm.type.getD "commonjs")
  let expSim := exportsSimilar data.exports fm.exports
  match packageJSONIsTyped fm with
  | .error _ =>
    { outcome := .thrown "TypeError: Cannot read properties of null",
      fetchedFiles := false }
  | .ok true =>
    { outcome := .ok (.found
        { current := curStr, outOfDate := outOfDate, hasTypes := some .packageJson,
          packageJsonTypeMatches := typeMatches, exportsSimilar := expSim,
          isDeprecated := isDep }),
      fetchedFiles := false }
  | .ok false =>
    match tryGetPackageMetadata w data.unescapedName curStr with
    | .respError s t =>
      { outcome := .ok (.error ("failed to fetch metadata: " ++ toString s ++ " " ++ t)),
        fetchedFiles := true }
    | .thrownParse => { outcome := .thrown "metadata parse failure", fetchedFiles := true }
    | .got md =>
      match metadataFiles md with
      | .error msg => { outcome := .thrown msg, fetchedFiles := true }
      | .ok files =>
        { outcome := .ok (.found
            { current := curStr, outOfDate := outOfDate,
              hasTypes := classifyFiles (computeCandidates fm) files,
              packageJsonTypeMatches := typeMatches, exportsSimilar := expSim,
              isDeprecated := isDep }),
          fetchedFiles := true }

/-- The post-resolution step of `#checkPackage`: the too-new re-query,
the deprecation flag from both manifests, the cache short-circuit (a prior
`found` status whose `current` equals the raw manifest version string and
whose deprecation flag matches is returned untouched), else the fresh
computation. -/
def checkResolved (w : World) (data : TypingsData) (fm0 lm : NpmManifest)
    (cached : Option CachedStatus) : CheckResult :=
  let fm := tooNewRequery w data fm0
  let isDep := truthyOpt fm.deprecated || truthyOpt lm.deprecated
  match cached with
  | some (.found f) =>
    if f.current = fm.versionRaw ∧ f.isDeprecated = isDep then
      { outcome := .ok (.found f), fetchedFiles := false }
    else checkFresh w data fm isDep
  | _ => checkFresh w data fm isDep

/-- `#checkPackage`: non-npm and conflict markers first; manifest
resolution with its error classification; then the post-resolution
step. -/
def checkPackage (w : World) (data : TypingsData) (cached : Option CachedStatus) :
    CheckResult :=
  match data.nonNpm with
  | .conflict => { outcome := .ok .conflict, fetchedFiles := false }
  | .yes => { outcome := .ok .nonNpm, fetchedFiles := false }
  | .no =>
    match resolveManifests w data.unescapedName (specifierOrLatest data) with
    | .error e =>
      { outcome := .ok (classifyManifestError data.unescapedName e), fetchedFiles := false }
    | .ok (fm0, lm) => checkResolved w data fm0 lm cached

/-!
## Cache layer and per-package wrapper
-/

/-- The current schema version (`common.ts`). -/
def dashboardVersion : Nat := 8

/-- One persisted cache document. -/
structure CachedInfo where
  dashboardVersion : Nat
  fullNpmName : String
  subDirectoryPath : String
  typesVersion : String
  unescapedName : String
  status : CachedStatus
deriving DecidableEq, Repr

/-- Result of reading the per-package cache file: missing file, a file
that fails `JSON.parse` or the structural part of `CachedInfo.parse`, or
a structurally valid record (whose `dashboardVersion` literal check is
modelled explicitly below). -/
inductive ReadResult where
  | missing
  | unreadable
  | record (r : CachedInfo)

/-- `CachedInfo.parse` composed with the surrounding `try`/`catch`: any
failure, including the `v.literal(dashboardVersion)` schema-version check,
yields absence rather than an error. -/
def parseCachedInfo (rr : ReadResult) : Option CachedInfo :=
  match rr with
  | .record r => if r.dashboardVersion = dashboardVersion then some r else none
  | _ => none

def mkTypesVersion (data : TypingsData) : String :=
  toString data.major ++ "." ++ toString data.minor

/-- The load step of `#checkPackageCached`: parse, then discard any record
whose `typesVersion` differs from the descriptor's. -/
def loadCached (rr : ReadResult) (typesVersion : String) : Option CachedInfo :=
  match parseCachedInfo rr with
  | some r => if r.typesVersion = typesVersion then some r else none
  | none => none

/-- The catch in `#checkPackageCached`, folding a thrown (non-fatal)
error into an `error` status.  (No `FatalError` is raised anywhere in this
variant.) -/
def statusOfResult (r : CheckResult) : CachedStatus :=
  match r.outcome with
  | .ok s => s
  | .thrown m => .error m

/-- The status `#checkPackageCached` ends up persisting. -/
def runStatus (w : World) (data : TypingsData) (prior : Option CachedStatus) :
    CachedStatus :=
  statusOfResult (checkPackage w data prior)

/-- `#checkPackageCached` as a function from the cache-file read to the
record that is written. -/
def runRecord (w : World) (data : TypingsData) (input : ReadResult) : CachedInfo :=
  let cached := loadCached input (mkTypesVersion data)
  let status := runStatus w data (cached.map (·.status))
  { dashboardVersion := dashboardVersion, fullNpmName := data.fullNpmName,
    subDirectoryPath := data.subDirectoryPath, typesVersion := mkTypesVersion data,
    unescapedName := data.unescapedName, status := status }

end DT

namespace DTV1

open DT (Version JValue truthyOpt jsTypeofV jsValues getField someTypesValue)

/-!
## The make-fetch-happen variant (`dashboardVersion` 1)

This is the engine variant whose primary `package.json` fetch escalates an
HTTP 524 to a `FatalError`; every other failure is handled at the
single-package boundary.  Only the pieces the fatal-escalation claim needs
are embedded.
-/

/-- The `PackageJSON` fields this variant reads.  As in the main
embedding, `version` is the raw string and `versionParsed` its loose
SemVer parse. -/
structure PackageJSONV1 where
  version : String
  versionParsed : Version
  types : Option JValue
  typings : Option JValue
  exports : Option JValue

/-- What the queued `fetch` of `package.json` produced: an HTTP success
(with the body's `PackageJSON.parse` result), an HTTP failure, or a
thrown network error (after the retry budget). -/
inductive V1Fetch where
  | httpOk (body : Except Unit PackageJSONV1)
  | httpErr (status : Nat) (text : String)
  | netThrow (msg : String)

structure V1World where
  fetchPkg : String → String → V1Fetch

structure V1Data where
  unescapedName : String
  fullNpmName : String
  subDirectoryPath : String
  major : Nat
  minor : Nat
  isLatest : Bool
  headerNonNpm : Bool

structure V1Found where
  current : String
  outOfDate : Bool
  minorOutOfDate : Bool
  hasTypes : Bool
deriving DecidableEq, Repr

inductive V1Status where
  | found (f : V1Found)
  | notInRegistry
  | nonNpm
  | error (message : String)
deriving DecidableEq, Repr

/-- Exceptions escaping `#checkPackage`: the `FatalError` class versus
everything else. -/
inductive V1Exn where
  | fatal (msg : String)
  | err (msg : String)
deriving DecidableEq, Repr

def v1VersionQuery (d : V1Data) : String :=
  if d.isLatest then "latest"
  else if d.major = 0 then toString d.major ++ "." ++ toString d.minor
  else toString d.major

/-- Same shape (and same partiality on null export values) as the main
variant's `packageJSONIsTyped`. -/
def packageJSONIsTypedV1 (p : PackageJSONV1) : Except Unit Bool :=
  if truthyOpt p.types then .ok true
  else if truthyOpt p.typings then .ok true
  else if truthyOpt p.exports ∧ jsTypeofV (p.exports.getD .vNull) = "object" then
    someTypesValue (jsValues (p.exports.getD .vNull))
  else .ok false

/-- The fresh `found` computation of this variant (boolean out-of-date
flags; `current` is the raw version string; no file listing exists in this
variant).  A TypeError thrown by the typed-ness scan escapes to the
package boundary. -/
def v1Fresh (d : V1Data) (pkg : PackageJSONV1) : Except V1Exn V1Status :=
  let c := pkg.versionParsed
  let flags :=
    if d.isLatest then
      if c.major > d.major then (true, false)
      else if c.minor > d.minor then
        if d.major = 0 then (true, false) else (false, true)
      else (false, false)
    else (false, false)
  match packageJSONIsTypedV1 pkg with
  | .error _ => .error (.err "TypeError: Cannot read properties of null")
  | .ok ht =>
    .ok (.found
      { current := pkg.version, outOfDate := flags.1, minorOutOfDate := flags.2,
        hasTypes := ht })

/-- This variant's `#checkPackage`: non-npm header, the unpkg
`package.json` fetch with 404 mapped to `not-in-registry` and 524 thrown
as `FatalError`, other HTTP failures and parse failures returned as
`error` statuses, the version-match cache short-circuit, then the fresh
computation. -/
def checkPackageV1 (w : V1World) (d : V1Data) (cached : Option V1Status) :
    Except V1Exn V1Status :=
  if d.headerNonNpm then .ok .nonNpm
  else
    let q := v1VersionQuery d
    match w.fetchPkg d.unescapedName q with
    | .netThrow msg => .error (.err msg)
    | .httpErr s t =>
      if s = 404 then .ok .notInRegistry
      else if s = 524 then
        .error (.fatal
          ("timeout fetching https://unpkg.com/" ++ d.unescapedName ++ "@" ++ q
            ++ "/package.json"))
      else
        .ok (.error
          (d.unescapedName ++ " failed to fetch package.json: " ++ toString s ++ " " ++ t))
    | .httpOk (.error _) => .ok (.error "failed to parse package.json")
    | .httpOk (.ok pkg) =>
      match cached with
      | some (.found f) =>
        if pkg.version = f.current then .ok (.found f) else v1Fresh d pkg
      | _ => v1Fresh d pkg

structure V1Record where
  dashboardVersion : Nat
  fullNpmName : String
  subDirectoryPath : String
  typesVersion : String
  unescapedName : String
  status : V1Status
deriving DecidableEq, Repr

def mkV1Record (d : V1Data) (st : V1Status) : V1Record :=
  { dashboardVersion := 1, fullNpmName := d.fullNpmName,
    subDirectoryPath := d.subDirectoryPath,
    typesVersion := toString d.major ++ "." ++ toString d.minor,
    unescapedName := d.unescapedName, status := st }

/-- Outcome of this variant's `#checkPackageCached`: a `FatalError`
propagates past the package boundary and nothing is written; every other
outcome (including thrown non-fatal errors, folded to an `error` status)
writes a record. -/
inductive V1Outcome where
  | fatal (msg : String)
  | wrote (rec : V1Record)
deriving DecidableEq, Repr

def checkPackageCachedV1 (w : V1World) (d : V1Data) (cached : Option V1Status) :
    V1Outcome :=
  match checkPackageV1 w d cached with
  | .error (.fatal m) => .fatal m
  | .error (.err m) => .wrote (mkV1Record d (.error m))
  | .ok st => .wrote (mkV1Record d st)

/-- Whether a status is of the `error` kind. -/
def isErrorStatusV1 : V1Status → Bool
  | .error _ => true
  | _ => false

end DTV1

namespace DTSpec

open DT

/-!
## Spec-side definitions

Definitions that follow the specification's words rather than the source,
used only to compare the two where they disagree.
-/

mutual
/-- Modelled from the spec: a value of the `exports` map, walked
recursively through nested conditional maps, declares a `types`
condition. -/
def declaresTypesCondition : JValue → Bool
  | .vObj fields => declaresTypesConditionObj fields
  | _ => false
def declaresTypesConditionObj : JObj → Bool
  | .nil => false
  | .cons k v tl =>
    k = "types" || declaresTypesCondition v || declaresTypesConditionObj tl
end

/-- Modelled from the spec: `isTypedViaManifest(manifest)` as the spec
states it — a `types`/`typings` field, or any leaf of the `exports` map,
recursively including nested conditional maps, declaring a `types`
condition. -/
def isTypedViaManifestSpec (p : NpmManifest) : Bool :=
  truthyOpt p.types
    || truthyOpt p.typings
    || (match p.exports with
        | some e => declaresTypesCondition e
        | none => false)

/-- Modelled from the spec: the declaration-file glob as the claim lists
it — `*.d.ts`, `*.d.cts`, `*.d.mts`, anywhere. -/
def specDeclGlob (filename : String) : Bool :=
  DT.strEndsWith filename ".d.ts" || DT.strEndsWith filename ".d.cts"
    || DT.strEndsWith filename ".d.mts"

end DTSpec

namespace DTX

open DT DTV1

/-!
## Concrete instances

Small concrete descriptors, manifests and network oracles used to
instantiate the theorems below on closed inputs.
-/

/-- A plain untyped manifest at version 1.0.0. -/
def mPlain : NpmManifest :=
  { versionRaw := "1.0.0", version := ⟨1, 0, 0, []⟩, main := none, types := none,
    typings := none, exports := none, type := none, deprecated := none }

/-- A generic latest-variant descriptor for declared 1.0. -/
def dPlain : TypingsData :=
  { unescapedName := "foo", fullNpmName := "@types/foo", subDirectoryPath := "foo",
    major := 1, minor := 0, nonNpm := .no, isLatest := true, packageJsonType := none,
    exports := none }

def noMeta : ProviderResult := .parseError

def wNotFound : World :=
  { manifest := fun _ _ => .error .notFound, packument := fun _ => .error (),
    primaryMeta := fun _ _ => noMeta, secondaryMeta := fun _ _ => noMeta }

def wUnpub : World :=
  { manifest := fun _ _ => .error (.noMatchingVersion none), packument := fun _ => .error (),
    primaryMeta := fun _ _ => noMeta, secondaryMeta := fun _ _ => noMeta }

def wMissing : World :=
  { manifest := fun _ _ => .error (.noMatchingVersion (some ["1.0.0"])),
    packument := fun _ => .error (),
    primaryMeta := fun _ _ => noMeta, secondaryMeta := fun _ _ => noMeta }

/-- `exports` whose `types` condition sits one level deeper than the code
looks: `{ ".": { "import": { "types": "./index.d.ts" } } }`. -/
def exportsNested : JValue :=
  .vObj (.cons "."
    (.vObj (.cons "import"
      (.vObj (.cons "types" (.vStr "./index.d.ts") .nil)) .nil)) .nil)

def mNested : NpmManifest :=
  { versionRaw := "1.0.0", version := ⟨1, 0, 0, []⟩, main := none, types := none,
    typings := none, exports := some exportsNested, type := none, deprecated := none }

/-- `exports` with a direct `types` condition:
`{ ".": { "types": "./index.d.ts" } }`. -/
def exportsDirect : JValue :=
  .vObj (.cons "." (.vObj (.cons "types" (.vStr "./index.d.ts") .nil)) .nil)

def mDirect : NpmManifest :=
  { versionRaw := "1.0.0", version := ⟨1, 0, 0, []⟩, main := none, types := none,
    typings := none, exports := some exportsDirect, type := none, deprecated := none }

/-- `exports` with a null direct value and nothing typed:
`{ "a": null }`. -/
def exportsNullVal : JValue :=
  .vObj (.cons "a" .vNull .nil)

def mNullExports : NpmManifest :=
  { versionRaw := "1.0.0", version := ⟨1, 0, 0, []⟩, main := none, types := none,
    typings := none, exports := some exportsNullVal, type := none, deprecated := none }

/-- A file tree holding exactly `/a.d.x.ts`. -/
def mdDXTS : Metadata :=
  { files := .cons (.mfile (some "a.d.x.ts") none) .nil }

def wDXTS : World :=
  { manifest := fun _ _ => .ok mPlain, packument := fun _ => .error (),
    primaryMeta := fun _ _ => .ok mdDXTS, secondaryMeta := fun _ _ => noMeta }

/-- A manifest whose raw version string already equals its canonical
form, served constantly: the short-circuit world. -/
def mSC : NpmManifest :=
  { versionRaw := "1.2.3", version := ⟨1, 2, 3, []⟩, main := none, types := none,
    typings := none, exports := none, type := none, deprecated := none }

def wSC : World :=
  { manifest := fun _ _ => .ok mSC, packument := fun _ => .error (),
    primaryMeta := fun _ _ => noMeta, secondaryMeta := fun _ _ => noMeta }

/-- A prior `found` status matching `mSC`. -/
def fSC : FoundStatus :=
  { current := "1.2.3", outOfDate := none, hasTypes := none,
    packageJsonTypeMatches := true, exportsSimilar := true, isDeprecated := false }

/-- Typed manifests at 2.0.3 (the `latest` tag) and 2.0.5 (unlisted under
`latest`), for a declared 2.1 descriptor. -/
def m203 : NpmManifest :=
  { versionRaw := "2.0.3", version := ⟨2, 0, 3, []⟩, main := none,
    types := some (.vStr "./index.d.ts"), typings := none, exports := none,
    type := none, deprecated := none }

def m205 : NpmManifest :=
  { versionRaw := "2.0.5", version := ⟨2, 0, 5, []⟩, main := none,
    types := some (.vStr "./index.d.ts"), typings := none, exports := none,
    type := none, deprecated := none }

def vs2 : List (String × Version) :=
  [("2.0.3", ⟨2, 0, 3, []⟩), ("2.0.5", ⟨2, 0, 5, []⟩)]

def w2 : World :=
  { manifest := fun _ spec => if spec = "2.0.5" then .ok m205 else .ok m203,
    packument := fun _ => .ok vs2,
    primaryMeta := fun _ _ => noMeta, secondaryMeta := fun _ _ => noMeta }

def d21 : TypingsData :=
  { unescapedName := "pkg2", fullNpmName := "@types/pkg2", subDirectoryPath := "pkg2",
    major := 2, minor := 1, nonNpm := .no, isLatest := true, packageJsonType := none,
    exports := none }

/-- A stale-schema cache record and a mismatched-typesVersion record. -/
def recStale : CachedInfo :=
  { dashboardVersion := 7, fullNpmName := "@types/foo", subDirectoryPath := "foo",
    typesVersion := "1.0", unescapedName := "foo", status := .notInRegistry }

def recWrongTv : CachedInfo :=
  { dashboardVersion := 8, fullNpmName := "@types/foo", subDirectoryPath := "foo",
    typesVersion := "9.9", unescapedName := "foo", status := .notInRegistry }

/-- V1 descriptor and worlds, one per fetch outcome. -/
def d9 : V1Data :=
  { unescapedName := "bar", fullNpmName := "@types/bar", subDirectoryPath := "bar",
    major := 1, minor := 0, isLatest := true, headerNonNpm := false }

def w524 : V1World := { fetchPkg := fun _ _ => .httpErr 524 "Origin Timeout" }

def w404 : V1World := { fetchPkg := fun _ _ => .httpErr 404 "Not Found" }

def w500 : V1World := { fetchPkg := fun _ _ => .httpErr 500 "Internal Server Error" }

def wThrow : V1World := { fetchPkg := fun _ _ => .netThrow "socket hang up" }

def wBadBody : V1World := { fetchPkg := fun _ _ => .httpOk (.error ()) }

end DTX

namespace DT

/-!
## Order lemmas for semver precedence
-/

theorem charsLt_irrefl (l : List Char) : charsLt l l = false := by
  induction l with
  | nil => rfl
  | cons c cs ih => simp [charsLt, ih]

theorem charsLt_trans {a b c : List Char}
    (h1 : charsLt a b = true) (h2 : charsLt b c = true) : charsLt a c = true := by
  induction a generalizing b c with
  | nil =>
    cases b with
    | nil => simp [charsLt] at h1
    | cons y ys =>
      cases c with
      | nil => simp [charsLt] at h2
      | cons z zs => simp [charsLt]
  | cons x xs ih =>
    cases b with
    | nil => simp [charsLt] at h1
    | cons y ys =>
      cases c with
      | nil => simp [charsLt] at h2
      | cons z zs =>
        simp only [charsLt, decide_eq_true_eq] at h1 h2 ⊢
        by_cases hxy : x = y
        · subst hxy
          simp only [if_pos rfl] at h1
          by_cases hxz : x = z
          · subst hxz
            simp only [if_pos rfl] at h2 ⊢
            exact ih h1 h2
          · simp only [if_neg hxz] at h2 ⊢
            exact h2
        · simp only [if_neg hxy] at h1
          by_cases hyz : y = z
          · subst hyz
            simp only [if_neg hxy]
            exact h1
          · simp only [if_neg hyz] at h2
            have h1p : x < y := of_decide_eq_true h1
            have h2p : y < z := of_decide_eq_true h2
            by_cases hxz : x = z
            · subst hxz
              exact absurd (lt_trans h1p h2p) (lt_irrefl x)
            · simp only [if_neg hxz]
              exact decide_eq_true (lt_trans h1p h2p)

theorem charsLt_conn {a b : List Char}
    (h1 : charsLt a b = false) (h2 : charsLt b a = false) : a = b := by
  induction a generalizing b with
  | nil =>
    cases b with
    | nil => rfl
    | cons y ys => simp [charsLt] at h1
  | cons x xs ih =>
    cases b with
    | nil => simp [charsLt] at h2
    | cons y ys =>
      simp only [charsLt, decide_eq_false_iff_not] at h1 h2
      by_cases hxy : x = y
      · subst hxy
        simp only [if_pos rfl] at h1 h2
        rw [ih h1 h2]
      · simp only [if_neg hxy] at h1
        have hyx : ¬y = x := fun h => hxy h.symm
        simp only [if_neg hyx] at h2
        exact absurd
          (le_antisymm (le_of_not_lt (of_decide_eq_false h2))
            (le_of_not_lt (of_decide_eq_false h1))) hxy

theorem identLt_irrefl (a : PreId) : identLt a a = false := by
  cases a with
  | num n => simp [identLt]
  | str s => simp [identLt, charsLt_irrefl]

theorem identLt_trans {a b c : PreId} (h1 : identLt a b = true) (h2 : identLt b c = true) :
    identLt a c = true := by
  cases a with
  | num x =>
    cases c with
    | num z =>
      cases b with
      | num y =>
        simp only [identLt, decide_eq_true_eq] at h1 h2 ⊢
        omega
      | str s => simp [identLt] at h2
    | str s => simp [identLt]
  | str sa =>
    cases b with
    | num y => simp [identLt] at h1
    | str sb =>
      cases c with
      | num z => simp [identLt] at h2
      | str sc =>
        simp only [identLt] at h1 h2 ⊢
        exact charsLt_trans h1 h2

theorem identLt_conn {a b : PreId} (h1 : identLt a b = false) (h2 : identLt b a = false) :
    a = b := by
  cases a with
  | num x =>
    cases b with
    | num y =>
      simp only [identLt, decide_eq_false_iff_not] at h1 h2
      have : x = y := by omega
      rw [this]
    | str s => simp [identLt] at h1
  | str sa =>
    cases b with
    | num y => simp [identLt] at h2
    | str sb =>
      simp only [identLt] at h1 h2
      have : sa = sb := String.toList_inj.mp (charsLt_conn h1 h2)
      rw [this]

theorem preListLt_irrefl (l : List PreId) : preListLt l l = false := by
  induction l with
  | nil => rfl
  | cons x xs ih => simp [preListLt, ih]

theorem preListLt_trans {a b c : List PreId}
    (h1 : preListLt a b = true) (h2 : preListLt b c = true) : preListLt a c = true := by
  induction a generalizing b c with
  | nil =>
    cases b with
    | nil => simp [preListLt] at h1
    | cons y ys =>
      cases c with
      | nil => simp [preListLt] at h2
      | cons z zs => simp [preListLt]
  | cons x xs ih =>
    cases b with
    | nil => simp [preListLt] at h1
    | cons y ys =>
      cases c with
      | nil => simp [preListLt] at h2
      | cons z zs =>
        simp only [preListLt] at h1 h2 ⊢
        by_cases hxy : x = y
        · subst hxy
          simp only [if_pos rfl] at h1
          by_cases hxz : x = z
          · subst hxz
            simp only [if_pos rfl] at h2 ⊢
            exact ih h1 h2
          · simp only [if_neg hxz] at h2 ⊢
            exact h2
        · simp only [if_neg hxy] at h1
          by_cases hyz : y = z
          · subst hyz
            simp only [if_neg hxy]
            exact h1
          · simp only [if_neg hyz] at h2
            by_cases hxz : x = z
            · subst hxz
              exfalso
              have := identLt_trans h1 h2
              simp [identLt_irrefl] at this
            · simp only [if_neg hxz]
              exact identLt_trans h1 h2

theorem preListLt_conn {a b : List PreId}
    (h1 : preListLt a b = false) (h2 : preListLt b a = false) : a = b := by
  induction a generalizing b with
  | nil =>
    cases b with
    | nil => rfl
    | cons y ys => simp [preListLt] at h1
  | cons x xs ih =>
    cases b with
    | nil => simp [preListLt] at h2
    | cons y ys =>
      simp only [preListLt] at h1 h2
      by_cases hxy : x = y
      · subst hxy
        simp only [if_pos rfl] at h1 h2
        rw [ih h1 h2]
      · simp only [if_neg hxy] at h1
        have hyx : ¬y = x := fun h => hxy h.symm
        simp only [if_neg hyx] at h2
        exact absurd (identLt_conn h1 h2) hxy

theorem preLt_irrefl (l : List PreId) : preLt l l = false := by
  cases l with
  | nil => rfl
  | cons x xs => simpa [preLt] using preListLt_irrefl (x :: xs)

theorem preLt_trans {a b c : List PreId}
    (h1 : preLt a b = true) (h2 : preLt b c = true) : preLt a c = true := by
  cases a with
  | nil =>
    cases b with
    | nil => simp [preLt] at h1
    | cons y ys => simp [preLt] at h1
  | cons x xs =>
    cases c with
    | nil => simp [preLt]
    | cons z zs =>
      cases b with
      | nil => simp [preLt] at h2
      | cons y ys =>
        simp only [preLt] at h1 h2 ⊢
        exact preListLt_trans h1 h2

theorem preLt_conn {a b : List PreId}
    (h1 : preLt a b = false) (h2 : preLt b a = false) : a = b := by
  cases a with
  | nil =>
    cases b with
    | nil => rfl
    | cons y ys => simp [preLt] at h2
  | cons x xs =>
    cases b with
    | nil => simp [preLt] at h1
    | cons y ys =>
      simp only [preLt] at h1 h2
      exact preListLt_conn h1 h2

/-- The numeric-triple strict lexicographic order. -/
def tripleLtP (a b : Version) : Prop :=
  a.major < b.major
    ∨ (a.major = b.major
      ∧ (a.minor < b.minor ∨ (a.minor = b.minor ∧ a.patch < b.patch)))

theorem versionLt_iff (a b : Version) :
    versionLt a b = true ↔
      tripleLtP a b
        ∨ (a.major = b.major ∧ a.minor = b.minor ∧ a.patch = b.patch
          ∧ preLt a.pre b.pre = true) := by
  unfold versionLt tripleLtP
  by_cases e1 : a.major = b.major
  · by_cases e2 : a.minor = b.minor
    · by_cases e3 : a.patch = b.patch
      · simp [e1, e2, e3]
      · simp [e1, e2, e3]
    · simp [e1, e2]
  · simp [e1]

theorem versionLt_irrefl (v : Version) : versionLt v v = false := by
  rcases h : versionLt v v with _ | _
  · rfl
  · have := (versionLt_iff v v).mp h
    unfold tripleLtP at this
    rcases this with h' | ⟨_, _, _, h'⟩
    · omega
    · simp [preLt_irrefl] at h'

theorem versionLt_trans {a b c : Version}
    (h1 : versionLt a b = true) (h2 : versionLt b c = true) : versionLt a c = true := by
  rw [versionLt_iff] at h1 h2 ⊢
  rcases h1 with t1 | ⟨e1, f1, g1, p1⟩
  · rcases h2 with t2 | ⟨e2, f2, g2, p2⟩
    · left
      unfold tripleLtP at t1 t2 ⊢
      omega
    · left
      unfold tripleLtP at t1 ⊢
      omega
  · rcases h2 with t2 | ⟨e2, f2, g2, p2⟩
    · left
      unfold tripleLtP at t2 ⊢
      omega
    · exact .inr ⟨e1.trans e2, f1.trans f2, g1.trans g2, preLt_trans p1 p2⟩

theorem versionLt_conn {a b : Version}
    (h1 : versionLt a b = false) (h2 : versionLt b a = false) : a = b := by
  have n1 : ¬(tripleLtP a b ∨ (a.major = b.major ∧ a.minor = b.minor ∧ a.patch = b.patch
      ∧ preLt a.pre b.pre = true)) := fun hr => by
    rw [(versionLt_iff a b).mpr hr] at h1
    exact Bool.noConfusion h1
  have n2 : ¬(tripleLtP b a ∨ (b.major = a.major ∧ b.minor = a.minor ∧ b.patch = a.patch
      ∧ preLt b.pre a.pre = true)) := fun hr => by
    rw [(versionLt_iff b a).mpr hr] at h2
    exact Bool.noConfusion h2
  have nt1 : ¬tripleLtP a b := fun t => n1 (.inl t)
  have nt2 : ¬tripleLtP b a := fun t => n2 (.inl t)
  unfold tripleLtP at nt1 nt2
  have e1 : a.major = b.major := by omega
  have e2 : a.minor = b.minor := by omega
  have e3 : a.patch = b.patch := by omega
  have p1 : preLt a.pre b.pre = false := by
    rcases hp : preLt a.pre b.pre with _ | _
    · rfl
    · exact absurd (.inr ⟨e1, e2, e3, hp⟩) n1
  have p2 : preLt b.pre a.pre = false := by
    rcases hp : preLt b.pre a.pre with _ | _
    · rfl
    · exact absurd (.inr ⟨e1.symm, e2.symm, e3.symm, hp⟩) n2
  have e4 := preLt_conn p1 p2
  rcases a with ⟨aM, am, ap, apre⟩
  rcases b with ⟨bM, bm, bp, bpre⟩
  simp_all

/-- Negative transitivity: `a` not below `b` and `b` not below `c` gives
`a` not below `c`. -/
theorem versionLt_neg_trans {a b c : Version}
    (h1 : versionLt a b = false) (h2 : versionLt b c = false) :
    versionLt a c = false := by
  rcases h : versionLt a c with _ | _
  · rfl
  · exfalso
    rcases hcb : versionLt c b with _ | _
    · have := versionLt_conn h2 hcb
      subst this
      rw [h] at h1
      exact Bool.noConfusion h1
    · have := versionLt_trans h hcb
      rw [this] at h1
      exact Bool.noConfusion h1

/-!
## `selectLatest` is the maximum of the list
-/

theorem selStep_shape (acc : Option (String × Version)) (x : String × Version) :
    selStep acc x = some x ∨ selStep acc x = acc := by
  unfold selStep
  rcases acc with _ | best
  · exact .inl rfl
  · by_cases h : versionLt best.2 x.2 = true
    · simp [h]
    · simp [h]

theorem foldl_selStep_mem : ∀ (l : List (String × Version))
    (acc : Option (String × Version)) (x : String × Version),
    l.foldl selStep acc = some x → acc = some x ∨ x ∈ l := by
  intro l
  induction l with
  | nil => exact fun acc x h => .inl h
  | cons hd tl ih =>
    intro acc x h
    rw [List.foldl_cons] at h
    rcases ih _ x h with h' | h'
    · rcases selStep_shape acc hd with e | e
      · rw [e] at h'
        cases h'
        exact .inr (List.mem_cons_self _ _)
      · exact .inl (e ▸ h')
    · exact .inr (List.mem_cons_of_mem _ h')

theorem foldl_selStep_max : ∀ (l : List (String × Version))
    (acc : Option (String × Version)) (x : String × Version),
    l.foldl selStep acc = some x →
    (∀ b, acc = some b → versionLt x.2 b.2 = false) ∧
      (∀ q ∈ l, versionLt x.2 q.2 = false) := by
  intro l
  induction l with
  | nil =>
    intro acc x h
    refine ⟨fun b hb => ?_, fun q hq => absurd hq (List.not_mem_nil q)⟩
    simp only [List.foldl_nil] at h
    rw [h] at hb
    cases hb
    exact versionLt_irrefl _
  | cons hd tl ih =>
    intro acc x h
    rw [List.foldl_cons] at h
    obtain ⟨ihAcc, ihTl⟩ := ih _ x h
    have hhd : versionLt x.2 hd.2 = false := by
      cases acc with
      | none => exact ihAcc hd rfl
      | some best =>
        rcases hc : versionLt best.2 hd.2 with _ | _
        · have hxb := ihAcc best (by simp [selStep, hc])
          exact versionLt_neg_trans hxb hc
        · exact ihAcc hd (by simp [selStep, hc])
    refine ⟨fun b hb => ?_, fun q hq => ?_⟩
    · subst hb
      rcases hc : versionLt b.2 hd.2 with _ | _
      · exact ihAcc b (by simp [selStep, hc])
      · have hxhd := ihAcc hd (by simp [selStep, hc])
        rcases hbx : versionLt x.2 b.2 with _ | _
        · rfl
        · have := versionLt_trans hbx hc
          rw [this] at hxhd
          exact Bool.noConfusion hxhd
    · rcases List.mem_cons.mp hq with h' | h'
      · exact h' ▸ hhd
      · exact ihTl q h'

theorem selectLatest_mem {l : List (String × Version)} {x : String × Version}
    (h : selectLatest l = some x) : x ∈ l := by
  rcases foldl_selStep_mem l none x h with h' | h'
  · exact Option.noConfusion h'
  · exact h'

theorem selectLatest_max {l : List (String × Version)} {x : String × Version}
    (h : selectLatest l = some x) : ∀ q ∈ l, versionLt x.2 q.2 = false :=
  (foldl_selStep_max l none x h).2

/-!
## Claim theorems
-/

/-- C1: for every `isLatest` descriptor that reaches the out-of-date
computation (`computeOutOfDate`, invoked by `checkPackage` on the resolved
upstream version): upstream major strictly above declared gives
`outOfDate = major`; equal majors with declared major at least 1 and
upstream minor strictly above gives `minor`; declared major 0 with
upstream minor strictly above gives `major`; an upstream `(major, minor)`
pair equal to the declared pair (same line, e.g. declared 0.3, upstream
0.3.9) sets no flag. -/
theorem c1_out_of_date_boundaries (M m : Nat) (cur : Version) :
    (cur.major > M → computeOutOfDate true M m cur = some .major) ∧
    (cur.major = M → 1 ≤ M → cur.minor > m → computeOutOfDate true M m cur = some .minor) ∧
    (M = 0 → cur.minor > m → computeOutOfDate true M m cur = some .major) ∧
    (cur.major = M → cur.minor = m → computeOutOfDate true M m cur = none) := by
  refine ⟨fun h1 => ?_, fun h1 h2 h3 => ?_, fun h1 h2 => ?_, fun h1 h2 => ?_⟩ <;>
    · unfold computeOutOfDate
      split_ifs <;> first | rfl | omega | simp_all

/-- Witness for C1 at the spec's own boundary examples. -/
theorem c1_out_of_date_boundaries_witness :
    computeOutOfDate true 2 1 ⟨3, 0, 0, []⟩ = some .major ∧
    computeOutOfDate true 2 1 ⟨2, 5, 0, []⟩ = some .minor ∧
    computeOutOfDate true 0 3 ⟨0, 4, 0, []⟩ = some .major ∧
    computeOutOfDate true 0 3 ⟨0, 3, 9, []⟩ = none :=
  ⟨(c1_out_of_date_boundaries 2 1 ⟨3, 0, 0, []⟩).1 (by decide),
   (c1_out_of_date_boundaries 2 1 ⟨2, 5, 0, []⟩).2.1 rfl (by decide) (by decide),
   (c1_out_of_date_boundaries 0 3 ⟨0, 4, 0, []⟩).2.2.1 rfl (by decide),
   (c1_out_of_date_boundaries 0 3 ⟨0, 3, 9, []⟩).2.2.2 rfl rfl⟩

/-- C7: the out-of-date field of a found status is a single optional
value, so at most one of too-new/major/minor is ever set, and the three
are characterised by the fixed priority: the too-new test first, then
major-behind, then minor-behind. -/
theorem c7_out_of_date_priority (isL : Bool) (M m : Nat) (v : Version) :
    (computeOutOfDate isL M m v = some .tooNew ↔
      isL = true ∧ (v.major < M ∨ (v.major = M ∧ v.minor < m))) ∧
    (computeOutOfDate isL M m v = some .major ↔
      isL = true ∧ ¬(v.major < M ∨ (v.major = M ∧ v.minor < m)) ∧
        (v.major > M ∨ (M = 0 ∧ v.minor > m))) ∧
    (computeOutOfDate isL M m v = some .minor ↔
      isL = true ∧ ¬(v.major < M ∨ (v.major = M ∧ v.minor < m)) ∧ ¬(v.major > M) ∧
        v.minor > m ∧ M ≠ 0) ∧
    ¬(computeOutOfDate isL M m v = some .tooNew ∧ computeOutOfDate isL M m v = some .major) ∧
    ¬(computeOutOfDate isL M m v = some .major ∧ computeOutOfDate isL M m v = some .minor) ∧
    ¬(computeOutOfDate isL M m v = some .tooNew ∧ computeOutOfDate isL M m v = some .minor) := by
  unfold computeOutOfDate
  cases isL with
  | false => simp
  | true =>
    simp only [Bool.not_true, Bool.false_eq_true, if_false]
    split_ifs with h1 h2 h3 h4 <;>
      simp_all

/-- Witness for C7: the too-new test wins over the 0.x minor-behind shape
at declared 5.2, upstream 5.0.0. -/
theorem c7_out_of_date_priority_witness :
    computeOutOfDate true 5 2 ⟨5, 0, 0, []⟩ = some .tooNew :=
  (c7_out_of_date_priority true 5 2 ⟨5, 0, 0, []⟩).1.mpr ⟨rfl, by decide⟩

/-- C4: a manifest-resolution failure is classified into exactly the three
terminal statuses: a name absent from the registry becomes
`not-in-registry`, a name whose error carries no versions at all becomes
`unpublished`, and one carrying versions becomes `missing-version`. -/
theorem c4_registry_absence (w : World) (data : TypingsData) (c : Option CachedStatus)
    (hn : data.nonNpm = .no) :
    (w.manifest data.unescapedName (specifierOrLatest data) = .error .notFound →
      (checkPackage w data c).outcome = .ok .notInRegistry) ∧
    (∀ vs, w.manifest data.unescapedName (specifierOrLatest data) =
        .error (.noMatchingVersion vs) →
      (vs.getD [] = [] → (checkPackage w data c).outcome = .ok .unpublished) ∧
      (vs.getD [] ≠ [] → (checkPackage w data c).outcome = .ok .missingVersion)) := by
  refine ⟨fun h => ?_, fun vs h => ⟨fun hv => ?_, fun hv => ?_⟩⟩
  · simp [checkPackage, hn, resolveManifests, h, classifyManifestError]
  · simp [checkPackage, hn, resolveManifests, h, classifyManifestError, hv]
  · simp [checkPackage, hn, resolveManifests, h, classifyManifestError, hv]

/-- Witness for C4: the three failure shapes on concrete worlds. -/
theorem c4_registry_absence_witness :
    (checkPackage DTX.wNotFound DTX.dPlain none).outcome = .ok .notInRegistry ∧
    (checkPackage DTX.wUnpub DTX.dPlain none).outcome = .ok .unpublished ∧
    (checkPackage DTX.wMissing DTX.dPlain none).outcome = .ok .missingVersion :=
  ⟨(c4_registry_absence DTX.wNotFound DTX.dPlain none rfl).1 rfl,
   ((c4_registry_absence DTX.wUnpub DTX.dPlain none rfl).2 none rfl).1 rfl,
   ((c4_registry_absence DTX.wMissing DTX.dPlain none rfl).2 (some ["1.0.0"]) rfl).2
     (by decide)⟩

/-- C8: cache load never hands a stale record to the engine — a missing or
unreadable file, a record with a different schema version, and a record
with a different `typesVersion` all load as absence (never an error), and
a load that comes back absent makes the run behave exactly as if no cache
file existed. -/
theorem c8_cache_fencing :
    (∀ tv, loadCached .missing tv = none ∧ loadCached .unreadable tv = none) ∧
    (∀ r tv, r.dashboardVersion ≠ dashboardVersion → loadCached (.record r) tv = none) ∧
    (∀ r tv, r.typesVersion ≠ tv → loadCached (.record r) tv = none) ∧
    (∀ w data rr, loadCached rr (mkTypesVersion data) = none →
      runRecord w data rr = runRecord w data .missing) := by
  refine ⟨fun tv => ⟨rfl, rfl⟩, fun r tv h => ?_, fun r tv h => ?_, fun w data rr h => ?_⟩
  · simp [loadCached, parseCachedInfo, h]
  · by_cases hd : r.dashboardVersion = dashboardVersion <;>
      simp [loadCached, parseCachedInfo, hd, h]
  · unfold runRecord
    rw [h]
    rfl

/-- Witness for C8: a schema-version-7 record and a mismatched
`typesVersion` record both load as absence and recompute from scratch. -/
theorem c8_cache_fencing_witness :
    loadCached (.record DTX.recStale) "1.0" = none ∧
    loadCached (.record DTX.recWrongTv) "1.0" = none ∧
    runRecord DTX.wNotFound DTX.dPlain (.record DTX.recStale) =
      runRecord DTX.wNotFound DTX.dPlain .missing :=
  ⟨c8_cache_fencing.2.1 DTX.recStale "1.0" (by decide),
   c8_cache_fencing.2.2.1 DTX.recWrongTv "1.0" (by decide),
   c8_cache_fencing.2.2.2 DTX.wNotFound DTX.dPlain (.record DTX.recStale) (by decide)⟩

/-- The direct-value scan on a list with no null value is total and
equals the one-level `.some` test. -/
theorem someTypesValue_no_null (l : List JValue) (h : JValue.vNull ∉ l) :
    someTypesValue l =
      .ok (l.any fun v => !(jsTypeofV v = "string") && truthyOpt (getField v "types")) := by
  induction l with
  | nil => rfl
  | cons v rest ih =>
    have hv : v ≠ JValue.vNull := fun e => h (e ▸ List.mem_cons_self v rest)
    have hrest : JValue.vNull ∉ rest := fun e => h (List.mem_cons_of_mem v e)
    unfold someTypesValue
    by_cases hs : jsTypeofV v = "string"
    · rw [if_pos hs, ih hrest]
      simp [hs]
    · rw [if_neg hs]
      cases v with
      | vNull => exact absurd rfl hv
      | vBool b =>
        by_cases ht : truthyOpt (getField (.vBool b) "types") = true
        · simp [ht, hs]
        · simp only [Bool.not_eq_true] at ht
          simp [ht, hs, ih hrest]
      | vNum n =>
        by_cases ht : truthyOpt (getField (.vNum n) "types") = true
        · simp [ht, hs]
        · simp only [Bool.not_eq_true] at ht
          simp [ht, hs, ih hrest]
      | vStr t => exact absurd rfl hs
      | vArr a =>
        by_cases ht : truthyOpt (getField (.vArr a) "types") = true
        · simp [ht, hs]
        · simp only [Bool.not_eq_true] at ht
          simp [ht, hs, ih hrest]
      | vObj o =>
        by_cases ht : truthyOpt (getField (.vObj o) "types") = true
        · simp [ht, hs]
        · simp only [Bool.not_eq_true] at ht
          simp [ht, hs, ih hrest]

/-- The direct-value scan throws when a null value is present and no
value tests positive (the scan necessarily reaches a null). -/
theorem someTypesValue_null (l : List JValue) (hmem : JValue.vNull ∈ l)
    (hno : ∀ v ∈ l, ¬(jsTypeofV v ≠ "string" ∧ truthyOpt (getField v "types") = true)) :
    someTypesValue l = .error () := by
  induction l with
  | nil => exact absurd hmem (List.not_mem_nil _)
  | cons v rest ih =>
    unfold someTypesValue
    by_cases hv : v = JValue.vNull
    · subst hv
      rw [if_neg (by simp [jsTypeofV])]
    · have hmem2 : JValue.vNull ∈ rest := by
        rcases List.mem_cons.mp hmem with e | e
        · exact absurd e.symm hv
        · exact e
      have hno2 : ∀ u ∈ rest, ¬(jsTypeofV u ≠ "string" ∧
          truthyOpt (getField u "types") = true) :=
        fun u hu => hno u (List.mem_cons_of_mem v hu)
      by_cases hs : jsTypeofV v = "string"
      · rw [if_pos hs]
        exact ih hmem2 hno2
      · rw [if_neg hs]
        have ht : truthyOpt (getField v "types") = false := by
          rcases hb : truthyOpt (getField v "types") with _ | _
          · rfl
          · exact absurd ⟨hs, hb⟩ (hno v (List.mem_cons_self v rest))
        cases v with
        | vNull => exact absurd rfl hv
        | vBool b => rw [if_neg (by simp [ht])]; exact ih hmem2 hno2
        | vNum n => rw [if_neg (by simp [ht])]; exact ih hmem2 hno2
        | vStr t => exact absurd rfl hs
        | vArr a => rw [if_neg (by simp [ht])]; exact ih hmem2 hno2
        | vObj o => rw [if_neg (by simp [ht])]; exact ih hmem2 hno2

/-- C5 counterexample: `packageJSONIsTyped` walks only the direct values
of `exports`, not nested conditional maps.  On the manifest whose exports
are `{ ".": { "import": { "types": "./index.d.ts" } } }`, the spec's
recursive walk says typed, but the code says untyped. -/
theorem c5_counterexample :
    DTSpec.isTypedViaManifestSpec DTX.mNested = true ∧
    packageJSONIsTyped DTX.mNested = .ok false := by
  exact ⟨by decide, rfl⟩

/-- C5 as amended: on a manifest none of whose direct `exports` values is
null, `packageJSONIsTyped` returns true iff the manifest declares a
truthy `types` or `typings` field, or its `exports` is a truthy object
one of whose direct values is a non-string with a truthy `types`
property; a null direct value reached by the scan (here: neither field
truthy, no positive value at all) makes the property access throw; when
the check returns true the fresh computation yields a found status with
`hasTypes = package.json` and never issues the file-listing fetch, and
when it throws, the throw escapes (to be folded into an error record)
with the file listing likewise never fetched. -/
theorem c5_manifest_typedness (p : NpmManifest) :
    (JValue.vNull ∉ jsValues (p.exports.getD .vNull) →
      (packageJSONIsTyped p = .ok true ↔
        (truthyOpt p.types = true ∨ truthyOpt p.typings = true ∨
          (truthyOpt p.exports = true ∧ jsTypeofV (p.exports.getD .vNull) = "object" ∧
            ∃ v ∈ jsValues (p.exports.getD .vNull),
              jsTypeofV v ≠ "string" ∧ truthyOpt (getField v "types") = true)))) ∧
    (truthyOpt p.types = false → truthyOpt p.typings = false →
      truthyOpt p.exports = true → jsTypeofV (p.exports.getD .vNull) = "object" →
      JValue.vNull ∈ jsValues (p.exports.getD .vNull) →
      (∀ v ∈ jsValues (p.exports.getD .vNull),
        ¬(jsTypeofV v ≠ "string" ∧ truthyOpt (getField v "types") = true)) →
      packageJSONIsTyped p = .error ()) ∧
    (∀ w data isDep, packageJSONIsTyped p = .ok true →
      (checkFresh w data p isDep).fetchedFiles = false ∧
      ∃ st, (checkFresh w data p isDep).outcome = .ok (.found st) ∧
        st.hasTypes = some .packageJson) ∧
    (∀ w data isDep, packageJSONIsTyped p = .error () →
      (checkFresh w data p isDep).fetchedFiles = false ∧
      ∃ msg, (checkFresh w data p isDep).outcome = .thrown msg) := by
  refine ⟨fun hnull => ?_, fun h1 h2 h3 h4 hmem hno => ?_,
    fun w data isDep h => ?_, fun w data isDep h => ?_⟩
  · unfold packageJSONIsTyped
    by_cases t1 : truthyOpt p.types = true
    · simp [t1]
    · by_cases t2 : truthyOpt p.typings = true
      · simp [t1, t2]
      · simp only [Bool.not_eq_true] at t1 t2
        by_cases t3 : truthyOpt p.exports = true ∧
            jsTypeofV (p.exports.getD .vNull) = "object"
        · rw [if_neg (by simp [t1]), if_neg (by simp [t2]), if_pos t3,
            someTypesValue_no_null _ hnull]
          simp [t1, t2, t3.1, t3.2, List.any_eq_true]
        · rw [if_neg (by simp [t1]), if_neg (by simp [t2]), if_neg t3]
          simp only [t1, t2, Bool.false_eq_true, false_or]
          constructor
          · intro h
            exact Bool.noConfusion (Except.ok.inj h)
          · intro h
            exact absurd ⟨h.1, h.2.1⟩ t3
  · unfold packageJSONIsTyped
    rw [if_neg (by simp [h1]), if_neg (by simp [h2]), if_pos ⟨h3, h4⟩]
    exact someTypesValue_null _ hmem hno
  · unfold checkFresh
    rw [h]
    exact ⟨rfl, _, rfl, rfl⟩
  · unfold checkFresh
    rw [h]
    exact ⟨rfl, _, rfl⟩

/-- Witness for C5: a direct `exports["."].types` condition is detected
and classified as `package.json` with no file-listing fetch, while a null
direct export value makes the check throw, again with no file-listing
fetch. -/
theorem c5_manifest_typedness_witness :
    packageJSONIsTyped DTX.mDirect = .ok true ∧
    (checkFresh DTX.wNotFound DTX.dPlain DTX.mDirect false).fetchedFiles = false ∧
    packageJSONIsTyped DTX.mNullExports = .error () ∧
    (checkFresh DTX.wNotFound DTX.dPlain DTX.mNullExports false).fetchedFiles = false :=
  ⟨((c5_manifest_typedness DTX.mDirect).1 (by decide)).mpr
      (.inr (.inr ⟨rfl, rfl,
        .vObj (.cons "types" (.vStr "./index.d.ts") .nil), List.Mem.head _, by decide, rfl⟩)),
   ((c5_manifest_typedness DTX.mDirect).2.2.1 DTX.wNotFound DTX.dPlain false rfl).1,
   (c5_manifest_typedness DTX.mNullExports).2.1 rfl rfl rfl rfl (by decide) (by decide),
   ((c5_manifest_typedness DTX.mNullExports).2.2.2 DTX.wNotFound DTX.dPlain false rfl).1⟩

/-- C6 counterexample: the declaration matcher is the brace expansion of
`**/*.d.{ts,cts,mts,*.ts}`, which also matches `*.d.*.ts`.  A published
file `/a.d.x.ts` matches none of the three globs the claim lists and is
not an entrypoint candidate, yet the engine classifies the package as
`hasTypes = other`. -/
theorem c6_counterexample :
    checkPackage DTX.wDXTS DTX.dPlain none =
      { outcome := .ok (.found
          { current := "1.0.0", outOfDate := none, hasTypes := some .other,
            packageJsonTypeMatches := true, exportsSimilar := true, isDeprecated := false }),
        fetchedFiles := true } ∧
    DTSpec.specDeclGlob "/a.d.x.ts" = false ∧
    computeCandidates DTX.mPlain = ["/index.d.ts"] := by
  exact ⟨by decide, by decide, by decide⟩

/-- C6 as amended: with the candidates computed from the manifest, the
file classification is `entrypoint` iff some non-`node_modules` filename
is a candidate; failing that it is `other` iff some non-`node_modules`
filename matches the code's declaration glob (`*.d.ts`, `*.d.cts`,
`*.d.mts` or `*.d.*.ts`, anywhere); failing both it is unset; and
filenames under `/node_modules/` never contribute to either signal. -/
theorem c6_file_classification (fm : NpmManifest) (files : List String) :
    (classifyFiles (computeCandidates fm) files = some .entrypoint ↔
      ∃ f ∈ files, isNodeModulesPath f = false ∧ f ∈ computeCandidates fm) ∧
    ((¬∃ f ∈ files, isNodeModulesPath f = false ∧ f ∈ computeCandidates fm) →
      (classifyFiles (computeCandidates fm) files = some .other ↔
        ∃ f ∈ files, isNodeModulesPath f = false ∧ dtsMatch f = true)) ∧
    ((¬∃ f ∈ files, isNodeModulesPath f = false ∧ f ∈ computeCandidates fm) →
      (¬∃ f ∈ files, isNodeModulesPath f = false ∧ dtsMatch f = true) →
      classifyFiles (computeCandidates fm) files = none) ∧
    (classifyFiles (computeCandidates fm)
        (files.filter (fun f => !isNodeModulesPath f)) =
      classifyFiles (computeCandidates fm) files) := by
  have hval : ∀ (cs : List String) (f : String),
      (!isNodeModulesPath f && cs.contains f) = true ↔
        isNodeModulesPath f = false ∧ f ∈ cs := by
    intro cs f
    simp
  have hval2 : ∀ f : String,
      (!isNodeModulesPath f && dtsMatch f) = true ↔
        isNodeModulesPath f = false ∧ dtsMatch f = true := by
    intro f
    simp
  refine ⟨?_, fun hne => ?_, fun hne hno => ?_, ?_⟩
  · unfold classifyFiles
    by_cases he : (files.any fun f => !isNodeModulesPath f && (computeCandidates fm).contains f) = true
    · simp only [he, if_true]
      rw [List.any_eq_true] at he
      simp only [hval] at he
      simpa using he
    · simp only [Bool.not_eq_true] at he
      simp only [he, Bool.false_eq_true, if_false]
      rw [Bool.eq_false_iff] at he
      constructor
      · intro h
        split at h <;> simp_all
      · intro h
        exfalso
        apply he
        rw [List.any_eq_true]
        obtain ⟨f, hf, h1, h2⟩ := h
        exact ⟨f, hf, (hval _ f).mpr ⟨h1, h2⟩⟩
  · unfold classifyFiles
    have he : (files.any fun f => !isNodeModulesPath f && (computeCandidates fm).contains f) = false := by
      rw [Bool.eq_false_iff]
      intro hx
      rw [List.any_eq_true] at hx
      obtain ⟨f, hf, hfx⟩ := hx
      exact hne ⟨f, hf, (hval _ f).mp hfx⟩
    simp only [he, Bool.false_eq_true, if_false]
    by_cases ho : (files.any fun f => !isNodeModulesPath f && dtsMatch f) = true
    · simp only [ho, if_true]
      rw [List.any_eq_true] at ho
      simp only [hval2] at ho
      simpa using ho
    · simp only [Bool.not_eq_true] at ho
      simp only [ho, Bool.false_eq_true, if_false]
      constructor
      · intro h
        exact Option.noConfusion h
      · intro h
        exfalso
        rw [Bool.eq_false_iff] at ho
        apply ho
        rw [List.any_eq_true]
        obtain ⟨f, hf, h1, h2⟩ := h
        exact ⟨f, hf, (hval2 f).mpr ⟨h1, h2⟩⟩
  · unfold classifyFiles
    have he : (files.any fun f => !isNodeModulesPath f && (computeCandidates fm).contains f) = false := by
      rw [Bool.eq_false_iff]
      intro hx
      rw [List.any_eq_true] at hx
      obtain ⟨f, hf, hfx⟩ := hx
      exact hne ⟨f, hf, (hval _ f).mp hfx⟩
    have ho : (files.any fun f => !isNodeModulesPath f && dtsMatch f) = false := by
      rw [Bool.eq_false_iff]
      intro hx
      rw [List.any_eq_true] at hx
      obtain ⟨f, hf, hfx⟩ := hx
      exact hno ⟨f, hf, (hval2 f).mp hfx⟩
    simp only [he, ho, Bool.false_eq_true, if_false]
  · unfold classifyFiles
    have hany : ∀ p : String → Bool,
        ((files.filter (fun f => !isNodeModulesPath f)).any
            (fun f => !isNodeModulesPath f && p f)) =
          (files.any (fun f => !isNodeModulesPath f && p f)) := by
      intro p
      induction files with
      | nil => rfl
      | cons hd tl ih =>
        by_cases hm : isNodeModulesPath hd
        · simp [List.filter_cons, hm, ih]
        · simp [List.filter_cons, hm, ih]
    rw [hany, hany]

/-- Witness for C6: the `/lib/other.d.ts`-style scenarios — `other` alone,
then the entrypoint candidate winning, then a `node_modules` path
contributing nothing, then a declaration file under a dot directory
(which the matcher's default dot handling never traverses) contributing
nothing either. -/
theorem c6_file_classification_witness :
    classifyFiles (computeCandidates DTX.mPlain) ["/lib/other.d.ts"] = some .other ∧
    classifyFiles (computeCandidates DTX.mPlain) ["/lib/other.d.ts", "/index.d.ts"] =
      some .entrypoint ∧
    classifyFiles (computeCandidates DTX.mPlain) ["/node_modules/x/index.d.ts"] = none ∧
    classifyFiles (computeCandidates DTX.mPlain) ["/.types/a.d.ts"] = none :=
  ⟨((c6_file_classification DTX.mPlain ["/lib/other.d.ts"]).2.1 (by decide)).mpr
      ⟨"/lib/other.d.ts", by decide, by decide, by decide⟩,
   (c6_file_classification DTX.mPlain ["/lib/other.d.ts", "/index.d.ts"]).1.mpr
      ⟨"/index.d.ts", by decide, by decide, by decide⟩,
   (c6_file_classification DTX.mPlain ["/node_modules/x/index.d.ts"]).2.2.1
      (by decide) (by decide),
   (c6_file_classification DTX.mPlain ["/.types/a.d.ts"]).2.2.1
      (by decide) (by decide)⟩

/-- Once the first run's status came from the fresh computation, feeding
it back as the prior status reproduces it. -/
theorem checkResolved_fresh_feedback (w : World) (data : TypingsData)
    (fm0 lm : NpmManifest) (st1 : CachedStatus)
    (h : st1 = statusOfResult
      (checkFresh w data (tooNewRequery w data fm0)
        (truthyOpt (tooNewRequery w data fm0).deprecated || truthyOpt lm.deprecated))) :
    statusOfResult (checkResolved w data fm0 lm (some st1)) = st1 := by
  unfold checkResolved
  dsimp only
  cases st1 with
  | found f1 =>
    dsimp only
    by_cases hc : f1.current = (tooNewRequery w data fm0).versionRaw ∧
        f1.isDeprecated =
          (truthyOpt (tooNewRequery w data fm0).deprecated || truthyOpt lm.deprecated)
    · rw [if_pos hc]
      rfl
    · rw [if_neg hc]
      exact h.symm
  | notInRegistry => exact h.symm
  | unpublished => exact h.symm
  | missingVersion => exact h.symm
  | nonNpm => exact h.symm
  | conflict => exact h.symm
  | error m => exact h.symm

/-- The post-resolution step is idempotent at the status level. -/
theorem checkResolved_status_idem (w : World) (data : TypingsData)
    (fm0 lm : NpmManifest) (p : Option CachedStatus) :
    statusOfResult (checkResolved w data fm0 lm
        (some (statusOfResult (checkResolved w data fm0 lm p)))) =
      statusOfResult (checkResolved w data fm0 lm p) := by
  rcases p with _ | st
  · exact checkResolved_fresh_feedback w data fm0 lm _ rfl
  · cases st with
    | found f =>
      by_cases hc : f.current = (tooNewRequery w data fm0).versionRaw ∧
          f.isDeprecated =
            (truthyOpt (tooNewRequery w data fm0).deprecated || truthyOpt lm.deprecated)
      · have h1 : checkResolved w data fm0 lm (some (.found f)) =
            { outcome := .ok (.found f), fetchedFiles := false } := by
          unfold checkResolved
          dsimp only
          show (if f.current = (tooNewRequery w data fm0).versionRaw ∧
              f.isDeprecated = (truthyOpt (tooNewRequery w data fm0).deprecated
                || truthyOpt lm.deprecated) then _ else _) = _
          rw [if_pos hc]
        rw [h1]
        show statusOfResult (checkResolved w data fm0 lm (some (.found f))) = _
        rw [h1]
      · have h1 : checkResolved w data fm0 lm (some (.found f)) =
            checkFresh w data (tooNewRequery w data fm0)
              (truthyOpt (tooNewRequery w data fm0).deprecated
                || truthyOpt lm.deprecated) := by
          unfold checkResolved
          dsimp only
          show (if f.current = (tooNewRequery w data fm0).versionRaw ∧
              f.isDeprecated = (truthyOpt (tooNewRequery w data fm0).deprecated
                || truthyOpt lm.deprecated) then _ else _) = _
          rw [if_neg hc]
        rw [h1]
        exact checkResolved_fresh_feedback w data fm0 lm _ rfl
    | notInRegistry => exact checkResolved_fresh_feedback w data fm0 lm _ rfl
    | unpublished => exact checkResolved_fresh_feedback w data fm0 lm _ rfl
    | missingVersion => exact checkResolved_fresh_feedback w data fm0 lm _ rfl
    | nonNpm => exact checkResolved_fresh_feedback w data fm0 lm _ rfl
    | conflict => exact checkResolved_fresh_feedback w data fm0 lm _ rfl
    | error m => exact checkResolved_fresh_feedback w data fm0 lm _ rfl

/-- Feeding the persisted status of one run into a second run with the
same oracle reproduces it unchanged. -/
theorem runStatus_idem (w : World) (data : TypingsData) (p : Option CachedStatus) :
    runStatus w data (some (runStatus w data p)) = runStatus w data p := by
  unfold runStatus checkPackage
  cases hn : data.nonNpm with
  | conflict => rfl
  | yes => rfl
  | no =>
    cases hres : resolveManifests w data.unescapedName (specifierOrLatest data) with
    | error e => rfl
    | ok pr => exact checkResolved_status_idem w data pr.1 pr.2 p

/-- C3: when the prior cached status is `found` and the newly resolved
(post-re-query) manifest's raw version string and deprecation flag equal
the prior `current` and `isDeprecated`, `checkPackage` returns the prior
status object unchanged and issues no file-listing fetch; consequently
running the cached wrapper twice against an unchanged oracle writes an
identical record. -/
theorem c3_short_circuit_idempotence :
    (∀ (w : World) (data : TypingsData) (f : FoundStatus) (fm lm : NpmManifest),
      data.nonNpm = .no →
      resolveManifests w data.unescapedName (specifierOrLatest data) = .ok (fm, lm) →
      f.current = (tooNewRequery w data fm).versionRaw →
      f.isDeprecated =
        (truthyOpt (tooNewRequery w data fm).deprecated || truthyOpt lm.deprecated) →
      checkPackage w data (some (.found f)) =
        { outcome := .ok (.found f), fetchedFiles := false }) ∧
    (∀ (w : World) (data : TypingsData) (rr : ReadResult),
      runRecord w data (.record (runRecord w data rr)) = runRecord w data rr) := by
  constructor
  · intro w data f fm lm hn hres hcur hdep
    unfold checkPackage
    rw [hn, hres]
    unfold checkResolved
    dsimp only
    show (if f.current = (tooNewRequery w data fm).versionRaw ∧
        f.isDeprecated = (truthyOpt (tooNewRequery w data fm).deprecated
          || truthyOpt lm.deprecated) then _ else _) = _
    rw [if_pos ⟨hcur, hdep⟩]
  · intro w data rr
    generalize hrec : runRecord w data rr = rec1
    have hd : rec1.dashboardVersion = dashboardVersion := by rw [← hrec]; rfl
    have ht : rec1.typesVersion = mkTypesVersion data := by rw [← hrec]; rfl
    have h1 : loadCached (.record rec1) (mkTypesVersion data) = some rec1 := by
      unfold loadCached parseCachedInfo
      dsimp only
      rw [hd]
      simp [ht]
    unfold runRecord
    rw [h1]
    dsimp only [Option.map]
    rw [← hrec]
    have h2 : (runRecord w data rr).status =
        runStatus w data ((loadCached rr (mkTypesVersion data)).map (·.status)) := rfl
    rw [h2, runStatus_idem]
    rfl

/-- Witness for C3: the short-circuit on a concrete matching world plus a
concrete double run. -/
theorem c3_short_circuit_idempotence_witness :
    checkPackage DTX.wSC DTX.dPlain (some (.found DTX.fSC)) =
      { outcome := .ok (.found DTX.fSC), fetchedFiles := false } ∧
    runRecord DTX.wSC DTX.dPlain (.record (runRecord DTX.wSC DTX.dPlain .missing)) =
      runRecord DTX.wSC DTX.dPlain .missing :=
  ⟨c3_short_circuit_idempotence.1 DTX.wSC DTX.dPlain DTX.fSC DTX.mSC DTX.mSC rfl
      rfl rfl rfl,
   c3_short_circuit_idempotence.2 DTX.wSC DTX.dPlain .missing⟩

/-- On release versions, the code's caret range is exactly "same major"
(declared major at least 1) resp. "major 0 and same minor". -/
theorem satisfiesCaretCode_release (M m : Nat) (u : Version) (hpre : u.pre = []) :
    satisfiesCaretCode M m u = true ↔
      (if M = 0 then u.major = 0 ∧ u.minor = m else u.major = M) := by
  have hfp : (caretFloorCode M m).pre = [] := by
    unfold caretFloorCode
    split <;> rfl
  have hcp : (caretCeil M m).pre = [.num 0] := by
    unfold caretCeil
    split <;> rfl
  have hfloor : versionLt u (caretFloorCode M m) = false ↔
      ¬ tripleLtP u (caretFloorCode M m) := by
    constructor
    · intro h ht
      rw [(versionLt_iff _ _).mpr (.inl ht)] at h
      exact Bool.noConfusion h
    · intro h
      rcases hv : versionLt u (caretFloorCode M m) with _ | _
      · rfl
      · rcases (versionLt_iff _ _).mp hv with ht | ⟨_, _, _, hp⟩
        · exact absurd ht h
        · rw [hpre, hfp] at hp
          exact Bool.noConfusion hp
  have hceil : versionLt u (caretCeil M m) = true ↔ tripleLtP u (caretCeil M m) := by
    constructor
    · intro h
      rcases (versionLt_iff _ _).mp h with ht | ⟨_, _, _, hp⟩
      · exact ht
      · rw [hpre, hcp] at hp
        simp [preLt] at hp
    · intro ht
      exact (versionLt_iff _ _).mpr (.inl ht)
  unfold satisfiesCaretCode versionLe
  rw [Bool.and_eq_true, Bool.not_eq_true']
  rw [hfloor, hceil]
  unfold tripleLtP caretFloorCode caretCeil
  by_cases hM : M = 0 <;> simp [hM] <;> omega

/-- C2 counterexample: declared 2.1, `latest` resolves to 2.0.3 while
2.0.5 also exists.  No published version satisfies the spec's range
`^2.1` (so the claim requires the original `latest` result, 2.0.3, to
stand), yet the engine re-resolves to 2.0.5: its re-query range is `^2`. -/
theorem c2_counterexample :
    checkPackage DTX.w2 DTX.d21 none =
      { outcome := .ok (.found
          { current := "2.0.5", outOfDate := some .tooNew, hasTypes := some .packageJson,
            packageJsonTypeMatches := true, exportsSimilar := true, isDeprecated := false }),
        fetchedFiles := false } ∧
    DTX.vs2.filter (fun p => satisfiesCaretSpec 2 1 p.2) = [] ∧
    DTX.m203.versionRaw = "2.0.3" := by
  exact ⟨by decide, by decide, rfl⟩

/-- C2 as amended: under the too-new trigger (specifier `latest`,
resolved `(major, minor)` behind the declared pair), the engine re-queries
the full version list and re-resolves the manifest of the highest version
(prereleases included) satisfying the caret range of the declared
specifier — `^{major}` when the declared major is at least 1 and
`^{major}.{minor}` when it is 0 — and proceeds unchanged when no version
satisfies that range. -/
theorem c2_too_new_requery (w : World) (data : TypingsData) (fm : NpmManifest)
    (vs : List (String × Version))
    (hlat : specifierOrLatest data = "latest")
    (hbehind : fm.version.major < data.major
      ∨ (fm.version.major = data.major ∧ fm.version.minor < data.minor))
    (hpack : w.packument data.unescapedName = .ok vs) :
    ((vs.filter (fun p => satisfiesCaretCode data.major data.minor p.2)) = [] →
      tooNewRequery w data fm = fm) ∧
    (∀ raw v fm2,
      selectLatest (vs.filter (fun p => satisfiesCaretCode data.major data.minor p.2)) =
        some (raw, v) →
      w.manifest data.unescapedName raw = .ok fm2 →
      tooNewRequery w data fm = fm2 ∧
        (raw, v) ∈ vs ∧ satisfiesCaretCode data.major data.minor v = true ∧
        ∀ q ∈ vs, satisfiesCaretCode data.major data.minor q.2 = true →
          versionLt v q.2 = false) ∧
    (∀ u : Version, u.pre = [] →
      (satisfiesCaretCode data.major data.minor u = true ↔
        (if data.major = 0 then u.major = 0 ∧ u.minor = data.minor
          else u.major = data.major))) := by
  refine ⟨fun hemp => ?_, fun raw v fm2 hsel hman => ?_,
    fun u hpre => satisfiesCaretCode_release _ _ u hpre⟩
  · unfold tooNewRequery
    rw [if_pos ⟨hlat, hbehind⟩, hpack]
    dsimp only
    rw [hemp]
    rfl
  · refine ⟨?_, ?_, ?_, ?_⟩
    · unfold tooNewRequery
      rw [if_pos ⟨hlat, hbehind⟩, hpack]
      dsimp only
      rw [hsel]
      dsimp only
      rw [hman]
    · exact (List.mem_filter.mp (selectLatest_mem hsel)).1
    · have := (List.mem_filter.mp (selectLatest_mem hsel)).2
      simpa using this
    · intro q hq hsat
      exact selectLatest_max hsel q (List.mem_filter.mpr ⟨hq, by simpa using hsat⟩)

/-- Witness for C2: the concrete 2.1-vs-latest-2.0.3 world, where the
re-query selects and re-resolves 2.0.5, and 2.0.5 satisfies the `^2`
range. -/
theorem c2_too_new_requery_witness :
    tooNewRequery DTX.w2 DTX.d21 DTX.m203 = DTX.m205 ∧
    satisfiesCaretCode 2 1 ⟨2, 0, 5, []⟩ = true :=
  ⟨((c2_too_new_requery DTX.w2 DTX.d21 DTX.m203 DTX.vs2 rfl (by decide) rfl).2.1
      "2.0.5" ⟨2, 0, 5, []⟩ DTX.m205 (by decide) rfl).1,
   ((c2_too_new_requery DTX.w2 DTX.d21 DTX.m203 DTX.vs2 rfl (by decide) rfl).2.2
      ⟨2, 0, 5, []⟩ rfl).mpr (by decide)⟩

end DT

namespace DTV1

/-- C9 counterexample: a 404 (`NotFound`) on the primary `package.json`
fetch is not folded into a `Status.error` record — the written record's
status is `not-in-registry`. -/
theorem c9_counterexample :
    checkPackageCachedV1 DTX.w404 DTX.d9 none =
      .wrote (mkV1Record DTX.d9 .notInRegistry) ∧
    isErrorStatusV1 .notInRegistry = false := by
  exact ⟨by decide, rfl⟩

/-- C9 as amended: an HTTP 524 on the primary `package.json` fetch is
escalated to a fatal, run-aborting outcome with no record written for
that package, while every other failure is handled at the package
boundary and still writes that package's record: a 404 yields a
`not-in-registry` record, other HTTP failures, thrown network errors and
manifest parse failures yield `Status.error` records. -/
theorem c9_fatal_escalation (w : V1World) (d : V1Data) (cached : Option V1Status)
    (hn : d.headerNonNpm = false) :
    (∀ t, w.fetchPkg d.unescapedName (v1VersionQuery d) = .httpErr 524 t →
      checkPackageCachedV1 w d cached =
        .fatal ("timeout fetching https://unpkg.com/" ++ d.unescapedName ++ "@"
          ++ v1VersionQuery d ++ "/package.json")) ∧
    (∀ s t, w.fetchPkg d.unescapedName (v1VersionQuery d) = .httpErr s t →
      s ≠ 404 → s ≠ 524 →
      checkPackageCachedV1 w d cached =
        .wrote (mkV1Record d (.error
          (d.unescapedName ++ " failed to fetch package.json: " ++ toString s ++ " " ++ t)))) ∧
    (∀ msg, w.fetchPkg d.unescapedName (v1VersionQuery d) = .netThrow msg →
      checkPackageCachedV1 w d cached = .wrote (mkV1Record d (.error msg))) ∧
    (w.fetchPkg d.unescapedName (v1VersionQuery d) = .httpOk (.error ()) →
      checkPackageCachedV1 w d cached =
        .wrote (mkV1Record d (.error "failed to parse package.json"))) ∧
    (∀ t, w.fetchPkg d.unescapedName (v1VersionQuery d) = .httpErr 404 t →
      checkPackageCachedV1 w d cached = .wrote (mkV1Record d .notInRegistry)) := by
  refine ⟨fun t h => ?_, fun s t h hs4 hs5 => ?_, fun msg h => ?_, fun h => ?_, fun t h => ?_⟩
  · unfold checkPackageCachedV1 checkPackageV1
    rw [hn]
    simp only [Bool.false_eq_true, if_false, h, if_true]
    rw [if_neg (by decide : ¬(524 = 404))]
  · unfold checkPackageCachedV1 checkPackageV1
    rw [hn]
    simp only [Bool.false_eq_true, if_false, h]
    rw [if_neg hs4, if_neg hs5]
  · unfold checkPackageCachedV1 checkPackageV1
    rw [hn]
    simp only [Bool.false_eq_true, if_false, h]
  · unfold checkPackageCachedV1 checkPackageV1
    rw [hn]
    simp only [Bool.false_eq_true, if_false, h]
  · unfold checkPackageCachedV1 checkPackageV1
    rw [hn]
    simp only [Bool.false_eq_true, if_false, h, if_true]

/-- Witness for C9: a 524 aborts the run with no record, a 500 and a
network throw and a parse failure write `error` records, a 404 writes a
`not-in-registry` record. -/
theorem c9_fatal_escalation_witness :
    checkPackageCachedV1 DTX.w524 DTX.d9 none =
      .fatal "timeout fetching https://unpkg.com/bar@latest/package.json" ∧
    checkPackageCachedV1 DTX.w500 DTX.d9 none =
      .wrote (mkV1Record DTX.d9
        (.error "bar failed to fetch package.json: 500 Internal Server Error")) ∧
    checkPackageCachedV1 DTX.wThrow DTX.d9 none =
      .wrote (mkV1Record DTX.d9 (.error "socket hang up")) ∧
    checkPackageCachedV1 DTX.wBadBody DTX.d9 none =
      .wrote (mkV1Record DTX.d9 (.error "failed to parse package.json")) := by
  refine ⟨?_, ?_, ?_, ?_⟩
  · have := (c9_fatal_escalation DTX.w524 DTX.d9 none rfl).1 "Origin Timeout" rfl
    simpa using this
  · exact (c9_fatal_escalation DTX.w500 DTX.d9 none rfl).2.1 500 "Internal Server Error"
      rfl (by decide) (by decide)
  · exact (c9_fatal_escalation DTX.wThrow DTX.d9 none rfl).2.2.1 "socket hang up" rfl
  · exact (c9_fatal_escalation DTX.wBadBody DTX.d9 none rfl).2.2.2.1 rfl

end DTV1
